import Mathlib

/-!
Verification development for the `Node`/`NodeTree` core of the
zhinst-toolkit repository (files `src/zhinst/toolkit/nodetree/node.py`
and `src/zhinst/toolkit/nodetree/nodetree.py`).

The Python code is shallowly embedded: strings are `String`, Python lists
and dicts are Lean lists (a dict is an association list in insertion
order, lookups take the binding that `dict.get` would return), `None` is
`Option.none`, and a raised exception is an explicit `PyErr` value.
Stateful code (the transaction buffer and the calls issued to the
transport connection) is modelled by explicit state passing of a
`TState`.  The external transport (`ziPython` connection object) is a
record of response functions: the embedding records every write call it
issues in a trace, and reads responses from the record.
-/

namespace ZhinstToolkit

/-! Python string primitives used by the source, on explicit `List Char`
data so that every operation is structurally recursive and computable. -/

/-- Python `s.split(sep)` for a one-character separator: keeps empty
pieces, `"".split` gives `[""]`. -/
def splitChar (c : Char) : List Char → List (List Char)
  | [] => [[]]
  | x :: xs =>
    if x = c then [] :: splitChar c xs
    else
      match splitChar c xs with
      | [] => [[x]]
      | g :: gs => (x :: g) :: gs

/-- Python `sep.join` for a one-character separator. -/
def joinChar (c : Char) : List (List Char) → List Char
  | [] => []
  | [x] => x
  | x :: y :: xs => x ++ c :: joinChar c (y :: xs)

/-- Python `s.rstrip("_")`: drop every trailing underscore. -/
def rstripData (l : List Char) : List Char :=
  (l.reverse.dropWhile (fun c => c = '_')).reverse

/-- Python `s.rstrip("_")` on `String`. -/
def pyRstrip (s : String) : String := String.mk (rstripData s.data)

/-- Python `raw.split("/")`. -/
def pySplitSlash (s : String) : List String :=
  (splitChar '/' s.data).map String.mk

/-- Python `"/".join(parts)`. -/
def pyJoinSlash (l : List String) : String :=
  String.mk (joinChar '/' (l.map String.data))

/-- Python `s.startswith(p)`. -/
def pyStartsWith (s p : String) : Bool := List.isPrefixOf p.data s.data

/-- Python `sub in s` on strings: substring containment. -/
def pyIn (sub s : String) : Bool := decide (sub.data <:+: s.data)

/-- Python `"".join(parts)` (used by the wildcard test of `Node`). -/
def pyConcat (l : List String) : String := l.foldl (fun a b => a ++ b) ""

/-- The keyword list of `keyword.iskeyword` (Python 3, case sensitive). -/
def kwlist : List String :=
  ["False", "None", "True", "and", "as", "assert", "async", "await",
   "break", "class", "continue", "def", "del", "elif", "else", "except",
   "finally", "for", "from", "global", "if", "import", "in", "is",
   "lambda", "nonlocal", "not", "or", "pass", "raise", "return", "try",
   "while", "yield"]

/-- Python `keyword.iskeyword`. -/
def is_keyword (s : String) : Bool := kwlist.contains s

/-- The keyword escape of `nodetree.py`: `node + "_" if is_keyword(node)
else node`. -/
def pyEscape (s : String) : String := if is_keyword s then s ++ "_" else s

/-! Glob matching.  `fnmatch.filter` on POSIX compares the pattern
literally (`os.path.normcase` is the identity), with `*`, `?` and
`[...]`/`[!...]` character classes; a `[` with no closing `]` is a
literal `[`.  The matcher below implements exactly these forms, with a
fuel argument (`pattern length + string length + 1` always suffices, and
the wrapper supplies it) so that it is structurally recursive and the
kernel can evaluate it. -/

/-- Parse a `[...]` class body (the part after `[`): optional leading `!`
negation, a `]` directly after the (optional) `!` is a literal member,
items may be `a-b` ranges.  Returns `(negated, ranges, rest)` or `none`
when there is no closing `]`. -/
def parseClassItems : List Char → List (Char × Char) → Option (List (Char × Char) × List Char)
  | [], _ => none
  | ']' :: rest, acc => some (acc.reverse, rest)
  | a :: '-' :: b :: rest, acc =>
    if b = ']' then
      -- `a-]`: `a` and `-` are literal members, `]` closes the class
      some (((('-', '-') :: (a, a) :: acc)).reverse, rest)
    else parseClassItems rest ((a, b) :: acc)
  | a :: rest, acc => parseClassItems rest ((a, a) :: acc)

/-- Parse a glob character class after the opening `[`. -/
def parseClass (p : List Char) : Option (Bool × List (Char × Char) × List Char) :=
  match p with
  | '!' :: rest =>
    (match rest with
     | ']' :: rest2 => (parseClassItems rest2 [(']', ']')]).map (fun r => (true, r))
     | _ => (parseClassItems rest []).map (fun r => (true, r)))
  | ']' :: rest2 => (parseClassItems rest2 [(']', ']')]).map (fun r => (false, r))
  | _ => (parseClassItems p []).map (fun r => (false, r))

/-- Membership of a character in a parsed class. -/
def classHas (items : List (Char × Char)) (c : Char) : Bool :=
  items.any (fun r => r.1 ≤ c ∧ c ≤ r.2)

/-- Fueled glob match; `globMatch` below supplies sufficient fuel. -/
def globMatchFuel : Nat → List Char → List Char → Bool
  | 0, _, _ => false
  | _ + 1, [], s => s.isEmpty
  | f + 1, '*' :: p, s =>
    globMatchFuel f p s ||
      (match s with
       | [] => false
       | _ :: s2 => globMatchFuel f ('*' :: p) s2)
  | f + 1, '?' :: p, s =>
    (match s with
     | [] => false
     | _ :: s2 => globMatchFuel f p s2)
  | f + 1, '[' :: p, s =>
    (match parseClass p with
     | some (neg, items, p2) =>
       (match s with
        | [] => false
        | c :: s2 => (classHas items c != neg) && globMatchFuel f p2 s2)
     | none =>
       -- no closing bracket: the `[` is literal
       (match s with
        | '[' :: s2 => globMatchFuel f p s2
        | _ => false))
  | f + 1, c :: p, s =>
    (match s with
     | c2 :: s2 => c = c2 && globMatchFuel f p s2
     | [] => false)

/-- `fnmatch.fnmatch(s, pattern)` on POSIX. -/
def globMatch (pattern s : String) : Bool :=
  globMatchFuel (pattern.data.length + s.data.length + 1) pattern.data s.data

/-- Python `fnmatch.filter(keys, pattern)`. -/
def fnmatchFilter (keys : List String) (pattern : String) : List String :=
  keys.filter (fun k => globMatch pattern k)

/-! Extraction of option labels: `re.findall(r'"(.+?)"[,:]+', value)` in
`Node._option_map` / `Node._option_map_reverse`.  A match is an opening
quote, a shortest nonempty run of non-newline characters, a closing
quote followed by at least one `,` or `:` (the `[,:]+` then consumes the
whole run); scanning resumes after the match, and a failed attempt at a
quote shifts the scan by one character. -/

/-- Whether a character is matched by `[,:]`. -/
def isSep (c : Char) : Bool := c = ',' || c = ':'

/-- Try to complete a label match after an opening quote: find the
shortest nonempty capture (any characters except a newline) whose
closing quote is followed by at least one `,` or `:`; return the label
and the rest of the input after the consumed separators. -/
def tryLabel (acc : List Char) : List Char → Option (List Char × List Char)
  | [] => none
  | '"' :: rest =>
    if !acc.isEmpty && (match rest with | c :: _ => isSep c | [] => false) then
      some (acc.reverse, rest.dropWhile isSep)
    else tryLabel ('"' :: acc) rest
  | c :: rest =>
    if c = '\n' then none else tryLabel (c :: acc) rest

/-- Fueled scan for all label matches. -/
def findLabelsFuel : Nat → List Char → List String
  | 0, _ => []
  | _ + 1, [] => []
  | f + 1, '"' :: rest =>
    (match tryLabel [] rest with
     | some (lbl, rest2) => String.mk lbl :: findLabelsFuel f rest2
     | none => findLabelsFuel f rest)
  | f + 1, _ :: rest => findLabelsFuel f rest

/-- `re.findall(r'"(.+?)"[,:]+', s)`. -/
def findLabels (s : String) : List String :=
  findLabelsFuel (s.data.length + 1) s.data

/-! The data model. -/

/-- Python values as the embedding needs them: integers, strings, the
`None` object, and an opaque tag for values of any other type (vectors,
samples, ...).  Floating point numbers are not modelled; where the
source dispatches on `isinstance(value, float)` the `other` constructor
stands for such a value. -/
inductive Val where
  | int (n : Int)
  | str (s : String)
  | pynone
  | other (tag : String)
deriving DecidableEq, Repr

/-- Python exceptions raised by the embedded code. -/
inductive PyErr where
  | keyError (key : String)
  | attributeError (msg : String)
  | typeError (msg : String)
  | runtimeError (msg : String)
  | valueError (msg : String)
  | syntaxError (msg : String)
  | indexError
  | recursionError
deriving DecidableEq, Repr

/-- A node descriptor, i.e. one value of the flat dict loaded from
`listNodesJSON`.  Every field is optional because the source reads them
with `dict.get(key, default)` and tests presence with `key in dict`.
The option map's keys are the integer codes (`int(key)` in the source is
the identity on them), its values the raw label strings.  `GetParser`
and `SetParser` are callables; `none` models an absent (or
non-callable) entry. -/
structure NodeDoc where
  nodeField : Option String := none
  description : Option String := none
  typeField : Option String := none
  unit : Option String := none
  options : Option (List (Int × String)) := none
  properties : Option String := none
  getParser : Option (Val → Val) := none
  setParser : Option (Val → Val) := none

/-- Truthiness of a descriptor dict: `if not result` in
`get_node_info` treats the empty dict as missing. -/
def NodeDoc.isEmptyDict (d : NodeDoc) : Bool :=
  d.nodeField.isNone && d.description.isNone && d.typeField.isNone &&
    d.unit.isNone && d.options.isNone && d.properties.isNone &&
    d.getParser.isNone && d.setParser.isNone

/-- One value of the dict returned by `connection.get`: the
`{"timestamp": [...], "value": [...]}` shape of an ordinary node.  An
HF2 response, which has no timestamp, is modelled by an empty timestamp
list (reading it raises the `IndexError` the source catches).  The
distinct `ZIVectorData` response shape of `_get_deep` is not modelled:
no claim exercises it. -/
structure RawEntry where
  timestamp : List Int := []
  value : List Val := []
deriving DecidableEq, Repr

/-- The transport connection: a record of response functions.  A `none`
in an optional operation models `getattr(connection, name, None)`
finding no (callable) attribute; for the `syncSet*` family it also
models the `TypeError` fallback path (the call not being supported). -/
structure Connection where
  getRes : String → List (String × RawEntry) := fun _ => []
  getIntRes : String → Int := fun _ => 0
  getDoubleRes : String → Val := fun _ => Val.pynone
  getStringRes : String → String := fun _ => ""
  getComplexRes : Option (String → Val) := none
  getSampleRes : Option (String → Val) := none
  getDIORes : Option (String → Val) := none
  hasSetVector : Bool := false
  hasSyncSetInt : Bool := false
  hasSyncSetDouble : Bool := false
  hasSyncSetString : Bool := false

/-- The registry (`NodeTree.__init__` state): the hidden prefix (already
lowercased, `None` when absent), the flat descriptor dict in insertion
order, the `_prefixes_keep` list computed by `_generate_first_layer`,
and the connection.  Theorems that depend on construction having
succeeded carry the corresponding `generate_first_layer` hypothesis. -/
structure NodeTree where
  prefix_hide : Option String := none
  flat_dict : List (String × NodeDoc) := []
  prefixes_keep : List String := []
  conn : Connection := {}

/-- One transport write call, as recorded in the trace. -/
inductive TCall where
  | setBatch (pairs : List (String × Val))
  | setSingle (path : String) (v : Val)
  | setVector (path : String) (v : Val)
  | syncSetInt (path : String) (v : Val)
  | syncSetDouble (path : String) (v : Val)
  | syncSetString (path : String) (v : Val)
deriving Repr

/-- An entry of the transaction queue: `add_to_set_transaction` accepts
a `Node` (modelled by its segment tuple) or a raw string. -/
abbrev QEntry := (List String ⊕ String) × Val

/-- Mutable registry state threaded through write operations: the
pending transaction queue (`None` when no transaction is open) and the
trace of transport write calls issued so far. -/
structure TState where
  queue : Option (List QEntry) := none
  calls : List TCall := []

/-! Registry functions (`nodetree.py`). -/

/-- `NodeTree._generate_first_layer`, run at construction over the keys
of the flat dict in order, threading the accumulated
`(first_layer, prefixes_keep)`.  A key without a leading slash raises
`SyntaxError`; a hidden key with no third segment raises `IndexError`
(`node_split[2]`). -/
def generate_first_layer (ph : Option String) :
    List String → List String × List String → Except PyErr (List String × List String)
  | [], acc => .ok acc
  | raw :: rest, (fl, keep) =>
    if ¬ pyStartsWith raw "/" then .error (.syntaxError raw)
    else
      match pySplitSlash raw with
      | _ :: p1 :: more =>
        if some p1 = ph then
          match more with
          | p2 :: _ =>
            generate_first_layer ph rest
              (if fl.contains p2 then fl else fl ++ [p2], keep)
          | [] => .error .indexError
        else
          generate_first_layer ph rest
            (fl, if keep.contains p1 then keep else keep ++ [p1])
      | _ => .error .indexError

/-- `NodeTree.raw_path_to_node`, returning the segment tuple of the
constructed `Node`: split on `/`, escape keyword segments with a
trailing underscore, drop the leading empty segment, and drop the
hidden prefix segment when it matches.  `none` models the `IndexError`
of `node_split[1]` on a path with no slash. -/
def raw_path_to_node (ph : Option String) (raw : String) : Option (List String) :=
  match (pySplitSlash raw).map pyEscape with
  | _ :: p1 :: rest => if some p1 = ph then some rest else some (p1 :: rest)
  | _ => none

/-- `NodeTree.node_to_raw_path` on a node's segment tuple: strip the
keyword escape from every segment, return `/` for the empty tuple, keep
the path as-is when its first segment is a kept prefix and otherwise
prepend the hidden prefix.  `none` models the `TypeError` of joining
`[None] + node_list` when no hidden prefix is set.  (The source's
`string_list.replace("_", "")` discards its result and is a no-op.) -/
def node_to_raw_path (t : NodeTree) (tree : List String) : Option String :=
  match tree with
  | [] => some "/"
  | a :: rest =>
    -- `node_list` is `(a :: rest).map pyRstrip`; it is falsy exactly when
    -- the tree is empty, and its head is `pyRstrip a`
    if t.prefixes_keep.contains (pyRstrip a) then
      some ("/" ++ pyJoinSlash ((a :: rest).map pyRstrip))
    else
      match t.prefix_hide with
      | some pre => some ("/" ++ pyJoinSlash (pre :: (a :: rest).map pyRstrip))
      | none => none

/-- `NodeTree.string_to_raw_path`'s keep-prefix loop: for each kept
prefix, stop with `false` (no insertion) if the string starts with it,
and otherwise raise `ValueError` if the string starts with the hidden
prefix; an exhausted list means the prefix is inserted. -/
def stpLoop (s : String) (pre : String) : List String → Except PyErr Bool
  | [] => .ok true
  | k :: rest =>
    if pyStartsWith s k then .ok false
    else if pyStartsWith s pre then
      .error (.valueError (s ++ " is a relative path but should be a absolute path (leading slash)"))
    else stpLoop s pre rest

/-- `NodeTree.string_to_raw_path`. -/
def string_to_raw_path (t : NodeTree) (s : String) : Except PyErr String :=
  match t.prefix_hide with
  | some pre =>
    if ¬ pyStartsWith s "/" then
      match stpLoop s pre t.prefixes_keep with
      | .error e => .error e
      | .ok true => .ok ("/" ++ pre ++ "/" ++ s)
      | .ok false => .ok ("/" ++ s)
    else .ok s
  | none => .ok s

/-- Result of `NodeTree.get_node_info`: a single descriptor dict or a
list of them (for wildcard matches). -/
inductive InfoRes where
  | single (d : NodeDoc)
  | multi (ds : List NodeDoc)

/-- `NodeTree.get_node_info` on a `Node` argument: convert to the raw
key, glob-filter the dict keys, return the single descriptor on exactly
one match and the list otherwise; an empty (falsy) result raises
`KeyError(key)`. -/
def get_node_info (t : NodeTree) (tree : List String) : Except PyErr InfoRes :=
  match node_to_raw_path t tree with
  | none => .error (.typeError "can only join an iterable")
  | some key =>
    match fnmatchFilter (t.flat_dict.map Prod.fst) key with
    | [k] =>
      match t.flat_dict.lookup k with
      | some d => if d.isEmptyDict then .error (.keyError key) else .ok (.single d)
      | none => .error (.keyError key)
    | ks =>
      match ks.filterMap (fun k => t.flat_dict.lookup k) with
      | [] => .error (.keyError key)
      | ds => .ok (.multi ds)

/-- `Node._contains_wildcards` (also the test at the head of
`Node._node_information`): any of `*`, `?`, `[` occurs in the
concatenation of the segments. -/
def contains_wildcards (tree : List String) : Bool :=
  (pyConcat tree).data.any (fun c => c = '*' || c = '?' || c = '[')

/-- `Node._node_information`: a wildcard path raises
`KeyError(node_to_raw_path(self))` without consulting the dict,
otherwise `get_node_info` resolves it. -/
def node_information (t : NodeTree) (tree : List String) : Except PyErr InfoRes :=
  if contains_wildcards tree then
    match node_to_raw_path t tree with
    | some raw => .error (.keyError raw)
    | none => .error (.typeError "can only join an iterable")
  else get_node_info t tree

/-- Access to `self._node_information` as a dict (`.get(...)` on it):
when the lookup produced a list, attribute access on it raises
`AttributeError`. -/
def infoDict (t : NodeTree) (tree : List String) : Except PyErr NodeDoc :=
  match node_information t tree with
  | .ok (.single d) => .ok d
  | .ok (.multi _) => .error (.attributeError "list object has no attribute get")
  | .error e => .error e

/-- `Node.properties`: `self._node_information.get("Properties", "")`. -/
def node_properties (t : NodeTree) (tree : List String) : Except PyErr String :=
  (infoDict t tree).map (fun d => d.properties.getD "")

/-- `Node.type`: `self._node_information.get("Type", "")`. -/
def node_type (t : NodeTree) (tree : List String) : Except PyErr String :=
  (infoDict t tree).map (fun d => d.typeField.getD "")

/-- `Node.options`: `self._node_information.get("Options", {})`. -/
def node_options (t : NodeTree) (tree : List String) : Except PyErr (List (Int × String)) :=
  (infoDict t tree).map (fun d => d.options.getD [])

/-- `Node.node`: the descriptor's `Node` field, or — when resolution
raised `KeyError` — the key carried by the error. -/
def node_prop (t : NodeTree) (tree : List String) : Except PyErr String :=
  match node_information t tree with
  | .ok (.single d) => .ok (d.nodeField.getD "")
  | .ok (.multi _) => .error (.attributeError "list object has no attribute get")
  | .error (.keyError k) => .ok k
  | .error e => .error e

/-- `Node._is_child_node`: the candidate's segment tuple is strictly
longer and agrees with this node's tuple on every common position. -/
def is_child_node (tree childTree : List String) : Bool :=
  if childTree.length ≤ tree.length then false
  else (tree.zip childTree).all (fun p => p.1 == p.2)

/-- `Node.is_partial_node`: iterate the registry (which converts every
raw key back to a node) and test `_is_child_node`.  A key that
`raw_path_to_node` cannot convert raises `IndexError` during the
iteration. -/
def is_partial_node (t : NodeTree) (tree : List String) :
    Except PyErr Bool :=
  go t.flat_dict
where
  go : List (String × NodeDoc) → Except PyErr Bool
    | [] => .ok false
    | (k, _) :: rest =>
      match raw_path_to_node t.prefix_hide k with
      | none => .error .indexError
      | some ck => if is_child_node tree ck then .ok true else go rest

/-- `NodeTree.__iter__`, fully consumed: every `(node, descriptor)` pair
of the flat dict in order. -/
def nodetree_iter (t : NodeTree) : Except PyErr (List (List String × NodeDoc)) :=
  go t.flat_dict
where
  go : List (String × NodeDoc) → Except PyErr (List (List String × NodeDoc))
    | [] => .ok []
    | (k, d) :: rest =>
      match raw_path_to_node t.prefix_hide k with
      | none => .error .indexError
      | some ck => (go rest).map (fun l => (ck, d) :: l)

/-- `Node.__iter__`, fully consumed: for every dict entry whose raw key
contains `self.node` as a substring, yield the converted node with the
descriptor. -/
def node_iter (t : NodeTree) (tree : List String) :
    Except PyErr (List (List String × NodeDoc)) :=
  match node_prop t tree with
  | .error e => .error e
  | .ok own => go own t.flat_dict
where
  go (own : String) : List (String × NodeDoc) → Except PyErr (List (List String × NodeDoc))
    | [] => .ok []
    | (k, d) :: rest =>
      if pyIn own k then
        match raw_path_to_node t.prefix_hide k with
        | none => .error .indexError
        | some ck => (go own rest).map (fun l => (ck, d) :: l)
      else go own rest

/-! Option maps (`Node._option_map`, `Node._option_map_reverse`). -/

/-- Assignment `m[k] = v` on a Python dict modelled as an association
list: an existing binding keeps its position and gets the new value, a
new key is appended. -/
def dictInsert [DecidableEq α] (m : List (α × β)) (k : α) (v : β) : List (α × β) :=
  match m with
  | [] => [(k, v)]
  | (k0, v0) :: rest => if k0 = k then (k, v) :: rest else (k0, v0) :: dictInsert rest k v

/-- Insert every label of one option entry into the forward map
(label to code); later labels overwrite earlier bindings, as
`dict.update` does. -/
def insertLabels (code : Int) : List (String × Int) → List String → List (String × Int)
  | acc, [] => acc
  | acc, l :: ls => insertLabels code (dictInsert acc l code) ls

/-- `Node._option_map`: for each `(code, value)` entry of the options
dict in order, map every quoted label of `value` to `int(code)`. -/
def option_map (opts : List (Int × String)) : List (String × Int) :=
  go [] opts
where
  go : List (String × Int) → List (Int × String) → List (String × Int)
    | acc, [] => acc
    | acc, (code, s) :: rest => go (insertLabels code acc (findLabels s)) rest

/-- `Node._option_map_reverse`: for each `(code, value)` entry in order
with at least one quoted label, map `int(code)` to the first label. -/
def option_map_reverse (opts : List (Int × String)) : List (Int × String) :=
  go [] opts
where
  go : List (Int × String) → List (Int × String) → List (Int × String)
    | acc, [] => acc
    | acc, (code, s) :: rest =>
      match findLabels s with
      | [] => go acc rest
      | l :: _ => go (dictInsert acc code l) rest

/-- `self._option_map.get(value)`: a dict keyed by label strings, looked
up with an arbitrary value (only a string can be a key). -/
def optionEncode (m : List (String × Int)) (v : Val) : Option Int :=
  match v with
  | .str s => m.lookup s
  | _ => none

/-! Node identity (`Node.__eq__`, `Node.__hash__`, chaining). -/

/-- A `Node` value: the identity of its root registry object (`is`
comparison) and its segment tuple. -/
structure PyNode where
  rootId : Nat
  tree : List String
deriving DecidableEq, Repr

/-- `Node.__eq__`: the keyword-escape-stripped tuples are equal and the
roots are the same object. -/
def node_eq (a b : PyNode) : Bool :=
  decide (a.tree.map pyRstrip = b.tree.map pyRstrip) && a.rootId == b.rootId

/-- One chaining step: `__getattr__` (returns `None`, i.e. no node, for
a leading-underscore name) or `__getitem__` (always appends `str(name)`). -/
inductive ChainStep where
  | attr (name : String)
  | item (name : String)

/-- Apply chaining steps to a node; `none` models the chain dying on a
`__getattr__` of an internal name. -/
def applyChain : PyNode → List ChainStep → Option PyNode
  | a, [] => some a
  | a, .attr n :: rest =>
    if pyStartsWith n "_" then none
    else applyChain ⟨a.rootId, a.tree ++ [n]⟩ rest
  | a, .item n :: rest => applyChain ⟨a.rootId, a.tree ++ [n]⟩ rest

/-- The argument tuple that `Node.__hash__` passes to Python's `hash`:
the stripped tuple — replaced, when empty, by `repr(self)` or by the
string `"Node"` when that recurses — paired with `repr(self._root)`.
Python's `hash` is a deterministic pure function of this tuple, so equal
tuples mean equal hashes.  `reprRoot` gives `repr` of the root object of
a given identity; `reprSelf` gives `repr(self)` as a function of the
node, with `Except.error` modelling a `RecursionError`. -/
def node_hash_key (reprRoot : Nat → String)
    (reprSelf : PyNode → Except Unit String) (a : PyNode) :
    (List String ⊕ String) × String :=
  let l := a.tree.map pyRstrip
  if l.isEmpty then
    (match reprSelf a with
     | .ok s => (Sum.inr s, reprRoot a.rootId)
     | .error _ => (Sum.inr "Node", reprRoot a.rootId))
  else (Sum.inl l, reprRoot a.rootId)

/-! The read path (`Node._get` and helpers). -/

/-- Result of a get: a bare value, a `(timestamp, value)` pair, or the
mapping returned by a wildcard get. -/
inductive GetRes where
  | val (v : Val)
  | tsval (ts : Int) (v : Val)
  | wild (entries : List (List String × Option Int × Val))

/-- Build the result mapping of `Node._get_wildcard` from the raw
response entries, converting each raw key to a node; `withTs` tells
whether the first (timestamped) comprehension succeeded or the
`IndexError` fallback ran. -/
def wildEntries (t : NodeTree) (withTs : Bool) :
    List (String × RawEntry) → Except PyErr (List (List String × Option Int × Val))
  | [] => .ok []
  | (k, e) :: rest =>
    match raw_path_to_node t.prefix_hide k with
    | none => .error .indexError
    | some ck =>
      match e.value with
      | [] => .error .indexError
      | v :: _ =>
        (wildEntries t withTs rest).map
          (fun l => (ck, (if withTs then e.timestamp.head? else none), v) :: l)

/-- `Node._get_wildcard` with the default `flat=True`: one
`connection.get(node_raw)` call; an empty (falsy) response raises
`KeyError(node_raw)`; the result dict carries `(timestamp, value)` per
matched node, with `None` timestamps when any entry lacks one (the HF2
`IndexError` fallback). -/
def get_wildcard (t : NodeTree) (node_raw : String) :
    Except PyErr (List (List String × Option Int × Val)) :=
  match t.conn.getRes node_raw with
  | [] => .error (.keyError node_raw)
  | raw =>
    if raw.all (fun q => !q.2.timestamp.isEmpty && !q.2.value.isEmpty) then
      wildEntries t true raw
    else wildEntries t false raw

/-- `Node._get_deep` with default kwargs: one `connection.get(self.node)`
call; an empty response raises the "keyword 'deep' is not available"
`TypeError`; otherwise the first entry's first timestamp and value are
returned, a missing timestamp (HF2) becoming `None`. -/
def get_deep (t : NodeTree) (tree : List String) : Except PyErr (Option Int × Val) :=
  match node_prop t tree with
  | .error e => .error e
  | .ok path =>
    match t.conn.getRes path with
    | [] => .error (.typeError "keyword deep is not available for this node.")
    | (_, e) :: _ =>
      match e.value with
      | [] => .error .indexError
      | v :: _ => .ok (e.timestamp.head?, v)

/-- `Node._get_cached`: dispatch on the descriptor type string to the
kind-specific accessor of the connection. -/
def get_cached (t : NodeTree) (tree : List String) : Except PyErr Val :=
  match node_type t tree with
  | .error e => .error e
  | .ok ty =>
    match node_prop t tree with
    | .error e => .error e
    | .ok path =>
      if pyIn "Integer" ty then .ok (.int (t.conn.getIntRes path))
      else if ty = "Complex Double" then
        match t.conn.getComplexRes with
        | none => .error (.attributeError "connection object has no attribute getComplex")
        | some f => .ok (f path)
      else if ty = "Double" then .ok (t.conn.getDoubleRes path)
      else if ty = "String" then .ok (.str (t.conn.getStringRes path))
      else if ty = "ZIVectorData" then (get_deep t tree).map Prod.snd
      else if ty = "ZIDemodSample" then
        match t.conn.getSampleRes with
        | none => .error (.attributeError "connection does not support getSample")
        | some f => .ok (f path)
      else if ty = "ZIDIOSample" then
        match t.conn.getDIORes with
        | none => .error (.runtimeError "nodes of type ZIDIOSample can only be polled.")
        | some f => .ok (f path)
      else .error (.runtimeError "nodes of this type can only be polled.")

/-- The enum decode step of `Node._get`: when the descriptor has an
options dict, a truthy decoded label replaces the raw value. -/
def enumDecode (opts : Option (List (Int × String))) (v : Val) : Val :=
  match opts with
  | none => v
  | some os =>
    match v with
    | .int n =>
      match (option_map_reverse os).lookup n with
      | some lbl => if lbl = "" then v else .str lbl
      | none => v
    | _ =>
      -- only integer codes are keys of the reverse map
      v

/-- `Node._get`: the readability check, the wildcard and partial-node
fallbacks on `KeyError`, the deep/cached dispatch, enum decoding and the
get parser, and the `(timestamp, value)` packaging (a zero timestamp is
falsy and yields the bare value, as in the source). -/
def node_get (t : NodeTree) (tree : List String) (deep enum parse : Bool) :
    Except PyErr GetRes :=
  match infoDict t tree with
  | .error (.keyError k) =>
    if contains_wildcards tree then
      match node_to_raw_path t tree with
      | some raw => (get_wildcard t raw).map GetRes.wild
      | none => .error (.typeError "can only join an iterable")
    else
      match is_partial_node t tree with
      | .error e => .error e
      | .ok true =>
        match node_to_raw_path t tree with
        | some raw => (get_wildcard t (raw ++ "/*")).map GetRes.wild
        | none => .error (.typeError "can only join an iterable")
      | .ok false => .error (.keyError k)
  | .error e => .error e
  | .ok d =>
    if ¬ pyIn "Read" (d.properties.getD "") then
      .error (.attributeError "node is not readable!")
    else
      match (if deep then (get_deep t tree).map (fun p => (p.1, p.2))
             else (get_cached t tree).map (fun v => (none, v))) with
      | .error e => .error e
      | .ok (ts, v0) =>
        let v1 := if enum then enumDecode d.options v0 else v0
        let v2 :=
          if parse then
            match d.getParser with
            | some f => f v1
            | none => v1
          else v1
        match ts with
        | some n => if n ≠ 0 then .ok (.tsval n v2) else .ok (.val v2)
        | none => .ok (.val v2)

/-! The write path (`Node._set` and helpers, `NodeTree.set_transaction`).
Writes record their transport calls in the `TState` trace; every
function returns `(raised exception or none, state afterwards)` so that
the state on an exception path (the `finally` of the transaction
context manager) is explicit. -/

/-- `fnmatch.filter(self._root.raw_dict.keys(), raw)`. -/
def matchedKeys (t : NodeTree) (raw : String) : List String :=
  fnmatchFilter (t.flat_dict.map Prod.fst) raw

/-- `Node._set_deep`: dispatch on the value's runtime type to the
`syncSet*` family; an unsupported connection (the `TypeError` the source
catches) falls back to an ordinary `connection.set` with a warning.  A
value that is neither an integer nor a string raises `RuntimeError`
(floats are not modelled). -/
def set_deep (t : NodeTree) (tree : List String) (v : Val) (st : TState) :
    Option PyErr × TState :=
  match v with
  | .int _ =>
    (match node_prop t tree with
     | .error e => (some e, st)
     | .ok path =>
       if t.conn.hasSyncSetInt then
         (none, { st with calls := st.calls ++ [.syncSetInt path v] })
       else (none, { st with calls := st.calls ++ [.setSingle path v] }))
  | .str _ =>
    (match node_prop t tree with
     | .error e => (some e, st)
     | .ok path =>
       if t.conn.hasSyncSetString then
         (none, { st with calls := st.calls ++ [.syncSetString path v] })
       else (none, { st with calls := st.calls ++ [.setSingle path v] }))
  | _ =>
    (some (.runtimeError "Invalid type for deep set (only int,float and str are supported)"), st)

/-- The body of `Node._set` after the writability check (or after the
`KeyError` handler fell through): the set parser, enum encoding, and the
buffering / vector / deep / plain-set dispatch. -/
def node_set_body (t : NodeTree) (tree : List String) (v : Val)
    (deep enum parse : Bool) (st : TState) : Option PyErr × TState :=
  match (if parse then
           (infoDict t tree).map (fun d =>
             match d.setParser with
             | some f => f v
             | none => v)
         else .ok v) with
  | .error e => (some e, st)
  | .ok v1 =>
    match (if enum then
             (infoDict t tree).map (fun d =>
               match d.options with
               | some os =>
                 (match optionEncode (option_map os) v1 with
                  | some n => Val.int n
                  | none => v1)
               | none => v1)
           else .ok v1) with
    | .error e => (some e, st)
    | .ok v2 =>
      match st.queue with
      | some q =>
        (match node_type t tree with
         | .error e => (some e, st)
         | .ok ty =>
           if ty = "ZIVectorData" then
             (some (.attributeError "Transactions do not support ZIVectorData"), st)
           else (none, { st with queue := some (q ++ [(Sum.inl tree, v2)]) }))
      | none =>
        (match node_type t tree with
         | .error e => (some e, st)
         | .ok ty =>
           if ty = "ZIVectorData" then
             if t.conn.hasSetVector then
               match node_prop t tree with
               | .error e => (some e, st)
               | .ok path =>
                 (none, { st with calls := st.calls ++ [.setVector path v2] })
             else (some (.attributeError "connection does not support setVector"), st)
           else if deep then set_deep t tree v2 st
           else
             match node_prop t tree with
             | .error e => (some e, st)
             | .ok path =>
               (none, { st with calls := st.calls ++ [.setSingle path v2] }))

/-- The combined set-parser and enum-encode transformation that
`Node._set` with default flags applies to the value before dispatching
it, for a resolved descriptor `d`. -/
def setTransform (d : NodeDoc) (v : Val) : Val :=
  match d.options with
  | some os =>
    (match optionEncode (option_map os)
        (match d.setParser with
         | some f => f v
         | none => v) with
     | some n => Val.int n
     | none =>
       match d.setParser with
       | some f => f v
       | none => v)
  | none =>
    match d.setParser with
    | some f => f v
    | none => v

/-- The value that `Node._set` with default flags would append to an
open transaction queue, or `none` when the set would not buffer (no
single writable descriptor, or a vector type).  Mirrors the buffering
path of `node_set_body`. -/
def bufOutcome (t : NodeTree) (tree : List String) (v : Val) : Option Val :=
  match node_information t tree with
  | .ok (.single d) =>
    if pyIn "Write" (d.properties.getD "") then
      if (d.typeField.getD "") = "ZIVectorData" then none
      else some (setTransform d v)
    else none
  | _ => none

/-- Conversion of the queued writes at transaction exit: `Node` entries
through `node_to_raw_path` (its `TypeError` on a joined `None` prefix
propagates), string entries through `string_to_raw_path` (the
`AttributeError` of `str.raw_tree` being the `except` that routes
there). -/
def flushPairs (t : NodeTree) : List QEntry → Except PyErr (List (String × Val))
  | [] => .ok []
  | (Sum.inl tree, v) :: rest =>
    match node_to_raw_path t tree with
    | none => .error (.typeError "can only join an iterable")
    | some raw => (flushPairs t rest).map (fun l => (raw, v) :: l)
  | (Sum.inr s, v) :: rest =>
    match string_to_raw_path t s with
    | .error e => .error e
    | .ok raw => (flushPairs t rest).map (fun l => (raw, v) :: l)

/-- One statement of a `with set_transaction()` body: a set issued
through a chained node, a set on the node of a raw dict key (the loop of
`_set_wildcard`), or an exception raised by the body. -/
inductive Op where
  | write (tree : List String) (v : Val)
  | writeKey (k : String) (v : Val)
  | raiseErr (e : PyErr)

mutual

/-- `Node._set`: the writability check, whose `KeyError` handler routes
wildcard paths to `_set_wildcard` and otherwise falls through to the
body (which re-raises on its next descriptor access).  The fuel bounds
the recursion through wildcard fan-out; it is only consumed there. -/
def node_set (fuel : Nat) (t : NodeTree) (tree : List String) (v : Val)
    (deep enum parse : Bool) (st : TState) : Option PyErr × TState :=
  match node_information t tree with
  | .error (.keyError _) =>
    if contains_wildcards tree then
      match fuel with
      | 0 => (some .recursionError, st)
      | f + 1 => set_wildcard f t tree v st
    else node_set_body t tree v deep enum parse st
  | .error e => (some e, st)
  | .ok (.multi _) => (some (.attributeError "list object has no attribute get"), st)
  | .ok (.single d) =>
    if ¬ pyIn "Write" (d.properties.getD "") then
      (some (.attributeError "This parameter is read-only."), st)
    else node_set_body t tree v deep enum parse st
termination_by (fuel, 0, 0)

/-- `Node._set_wildcard`: glob-match the raw dict keys, raise `KeyError`
on zero matches, and otherwise set every matched node inside a fresh
transaction on the owning registry. -/
def set_wildcard (fuel : Nat) (t : NodeTree) (tree : List String) (v : Val)
    (st : TState) : Option PyErr × TState :=
  match node_to_raw_path t tree with
  | none => (some (.typeError "can only join an iterable"), st)
  | some raw =>
    match matchedKeys t raw with
    | [] => (some (.keyError raw), st)
    | _ => set_transaction_run fuel t ((matchedKeys t raw).map (fun k => Op.writeKey k v)) st
termination_by (fuel, 4, 0)

/-- `NodeTree.set_transaction` run over a body: install a fresh empty
queue, run the body, and on normal exit convert the queued writes and
issue them as one `connection.set(nodes_raw)` batch; the `finally`
removes the queue on every path. -/
def set_transaction_run (fuel : Nat) (t : NodeTree) (ops : List Op) (st : TState) :
    Option PyErr × TState :=
  match runBody fuel t ops { st with queue := some [] } with
  | (some e, st2) => (some e, { st2 with queue := none })
  | (none, st2) =>
    match st2.queue with
    | none => (some (.typeError "NoneType object is not iterable"), { st2 with queue := none })
    | some q =>
      match flushPairs t q with
      | .error e => (.some e, { st2 with queue := none })
      | .ok pairs =>
        (none, { st2 with queue := none, calls := st2.calls ++ [.setBatch pairs] })
termination_by (fuel, 3, 0)

/-- Execution of one statement of a transaction body: a `node(value)`
call on a chained node, a `raw_path_to_node(key)(value)` call of the
wildcard fan-out loop, or a raised exception. -/
def runStep (fuel : Nat) (t : NodeTree) (op : Op) (st : TState) :
    Option PyErr × TState :=
  match op with
  | .write tree v => node_set fuel t tree v false true true st
  | .writeKey k v =>
    (match raw_path_to_node t.prefix_hide k with
     | none => (some .indexError, st)
     | some tr => node_set fuel t tr v false true true st)
  | .raiseErr e => (some e, st)
termination_by (fuel, 1, 0)

/-- Execution of a transaction body, statement by statement, stopping at
the first raised exception. -/
def runBody (fuel : Nat) (t : NodeTree) (ops : List Op) (st : TState) :
    Option PyErr × TState :=
  match ops with
  | [] => (none, st)
  | op :: rest =>
    let r := runStep fuel t op st
    if r.1.isSome then r else runBody fuel t rest r.2
termination_by (fuel, 2, ops.length)

end

/-! The polling wait (`Node.wait_for_state_change`).  Time is discrete:
`now` is the current clock tick, reading the clock costs nothing, and
each `time.sleep(sleep_time)` advances the clock by `s + 1` ticks (at
least one, since `sleep_time` is a positive duration).  The value a
`self._get()` poll of a node observes at a tick is given by the
environment function `obs`; it abstracts the connection's time-varying
cached value together with `_get`'s decoding, which no claim about the
wait depends on. -/

/-- The poll loop `while start_time + timeout >= time.time() and
self._get() != value: time.sleep(sleep_time)`, returning the exit
tick. -/
def wait_loop (obs : Nat → Val) (target : Val) (deadline s : Nat) (now : Nat) : Nat :=
  if h : now ≤ deadline ∧ obs now ≠ target then
    wait_loop obs target deadline s (now + s + 1)
  else now
termination_by deadline + 1 - now
decreasing_by omega

/-- The single-node wait of the `try` branch: run the poll loop from the
start tick and return `self._get() == value` at the exit tick, together
with that tick. -/
def wait_single (obs : Nat → Val) (target : Val) (timeout s now : Nat) : Bool × Nat :=
  let fin := wait_loop obs target (now + timeout) s now
  (obs fin == target, fin)

/-- The expected-value translation at the head of
`wait_for_state_change`: with an options dict and an integer argument,
the argument is replaced by `self._option_map_reverse.get(value)` —
`None` when the code is unmapped. -/
def wait_target (d : NodeDoc) (value : Val) : Val :=
  match d.options, value with
  | some os, .int n =>
    (match (option_map_reverse os).lookup n with
     | some lbl => .str lbl
     | none => .pynone)
  | _, _ => value

/-- Result of `wait_for_state_change`: a boolean for a concrete node, a
list of member results for a wildcard fan-out. -/
inductive WaitRes where
  | b (x : Bool)
  | l (xs : List WaitRes)
deriving Repr

mutual

/-- `Node.wait_for_state_change`: the single-node poll when the
descriptor resolves, and on `KeyError` the wildcard fan-out over every
matched key, re-raising when nothing matched.  The fuel bounds the
recursion through the fan-out. -/
def wait_fsc (fuel : Nat) (t : NodeTree) (obs : List String → Nat → Val)
    (tree : List String) (value : Val) (timeout s now : Nat) :
    Except PyErr (WaitRes × Nat) :=
  match fuel with
  | 0 => .error .recursionError
  | f + 1 =>
    match node_information t tree with
    | .ok (.single d) =>
      let r := wait_single (obs tree) (wait_target d value) timeout s now
      .ok (.b r.1, r.2)
    | .ok (.multi _) => .error (.attributeError "list object has no attribute get")
    | .error (.keyError k) =>
      if contains_wildcards tree then
        match node_to_raw_path t tree with
        | none => .error (.typeError "can only join an iterable")
        | some raw =>
          match wait_fan f t obs value s (matchedKeys t raw) timeout now with
          | .error e => .error e
          | .ok (rs, n2) =>
            if rs.isEmpty then .error (.keyError k) else .ok (.l rs, n2)
      else .error (.keyError k)
    | .error e => .error e
termination_by (fuel, 0, 0)

/-- The fan-out loop of `wait_for_state_change`: wait on each matched
key's node in order, zeroing the timeout after the first, threading the
clock. -/
def wait_fan (fuel : Nat) (t : NodeTree) (obs : List String → Nat → Val)
    (value : Val) (s : Nat) (ks : List String) (tmo now : Nat) :
    Except PyErr (List WaitRes × Nat) :=
  match ks with
  | [] => .ok ([], now)
  | k :: rest =>
    match raw_path_to_node t.prefix_hide k with
    | none => .error .indexError
    | some tr =>
      match wait_fsc fuel t obs tr value tmo s now with
      | .error e => .error e
      | .ok (r, n2) =>
        match wait_fan fuel t obs value s rest 0 n2 with
        | .error e => .error e
        | .ok (rs, fin) => .ok (r :: rs, fin)
termination_by (fuel, 1, ks.length)

end

/-- The single-node wait as the wildcard fan-out invokes it on a node
that resolves to one descriptor (the recursive call's `try` branch). -/
def wait_try (t : NodeTree) (obs : List String → Nat → Val)
    (tree : List String) (value : Val) (tmo s now : Nat) : Bool × Nat :=
  match node_information t tree with
  | .ok (.single d) => wait_single (obs tree) (wait_target d value) tmo s now
  | _ => (false, now)

/-- The fan-out behaviour as the claim states it: over the matched keys
in order, sequentially, the first node waited on with the full
caller-supplied timeout and every later node with a zero timeout,
collecting the individual boolean outcomes. -/
def fanout_claim (t : NodeTree) (obs : List String → Nat → Val)
    (value : Val) (s : Nat) : List String → Nat → Nat → List Bool × Nat
  | [], _, now => ([], now)
  | k :: rest, tmo, now =>
    let r := (match raw_path_to_node t.prefix_hide k with
              | some tr => wait_try t obs tr value tmo s now
              | none => (false, now))
    let p := fanout_claim t obs value s rest 0 r.2
    (r.1 :: p.1, p.2)

/-! Concrete example instances used by witnesses and counterexamples. -/

/-- A readable and writable integer descriptor for a given path. -/
def docRW (path : String) : NodeDoc :=
  { nodeField := some path
    typeField := some "Integer (64 bit)"
    properties := some "Read, Write, Setting" }

/-- A read-only double descriptor for a given path. -/
def docRO (path : String) : NodeDoc :=
  { nodeField := some path
    typeField := some "Double"
    properties := some "Read" }

/-- A demonstration registry: hidden prefix `dev1234`, two demodulator
enable nodes and one read-only clockbase node; the connection answers a
wildcard get over the demodulators. -/
def tDemo : NodeTree :=
  { prefix_hide := some "dev1234"
    flat_dict :=
      [("/dev1234/demods/0/enable", docRW "/dev1234/demods/0/enable"),
       ("/dev1234/demods/1/enable", docRW "/dev1234/demods/1/enable"),
       ("/dev1234/clockbase", docRO "/dev1234/clockbase")]
    prefixes_keep := []
    conn :=
      { getRes := fun p =>
          if p = "/dev1234/demods/*" then
            [("/dev1234/demods/0/enable", { timestamp := [5], value := [Val.int 1] }),
             ("/dev1234/demods/1/enable", { timestamp := [6], value := [Val.int 0] })]
          else [] } }

/-- The registry of the C2 counterexample: a raw path with a segment
that ends in an underscore. -/
def tUnderscore : NodeTree :=
  { prefix_hide := some "dev"
    flat_dict := [("/dev/a_/b", docRW "/dev/a_/b")]
    prefixes_keep := [] }

/-- The registry of the C6 counterexample: a leaf whose raw path is a
prefix (as a string, not segment-aligned) of a sibling's raw path. -/
def tSibling : NodeTree :=
  { prefix_hide := some "dev"
    flat_dict := [("/dev/a", docRW "/dev/a"), ("/dev/ab", docRW "/dev/ab")]
    prefixes_keep := [] }

/-- The options dict of the C5 counterexample: two codes whose first
quoted label is the same string. -/
def optsDup : List (Int × String) :=
  [(0, "\"on\": Output enabled."), (1, "\"on\": Also enabled.")]

/-- The write list of the C1 witness. -/
def writesDemo : List (List String × Val) :=
  [(["demods", "0", "enable"], Val.int 1), (["demods", "1", "enable"], Val.int 0)]

/-- The raw-path function of the C1 witness. -/
def rawFnDemo (tr : List String) : String := (node_to_raw_path tDemo tr).getD ""

/-- The segment tuple of a matched key of `tDemo`, for the C10 and C9
witnesses. -/
def trFnDemo (q : String) : List String :=
  (raw_path_to_node tDemo.prefix_hide q).getD []

/-- The raw path of a matched key's node of `tDemo`. -/
def rawKeyFnDemo (q : String) : String :=
  (node_to_raw_path tDemo (trFnDemo q)).getD ""

/-- The converted node of a raw key of `tSibling`. -/
def trFnSib (q : String) : List String :=
  (raw_path_to_node tSibling.prefix_hide q).getD []

/-- A well-behaved options dict for the C5 witness. -/
def optsGood : List (Int × String) :=
  [(0, "\"off\": Output disabled."), (1, "\"on\": Output enabled.")]

/-! Helper lemmas about the write path, shared by several claims. -/

/-- A resolved single descriptor makes `infoDict` return it. -/
theorem infoDict_of_info {t : NodeTree} {tree : List String} {d : NodeDoc}
    (h : node_information t tree = .ok (.single d)) : infoDict t tree = .ok d := by
  simp [infoDict, h]

/-- A buffering set reaches the queue-append branch of the body. -/
theorem node_set_body_buffers (t : NodeTree) (tree : List String) (v : Val)
    (st : TState) (q : List QEntry) (d : NodeDoc)
    (hq : st.queue = some q)
    (hinfo : node_information t tree = .ok (.single d))
    (hty : ¬ (d.typeField.getD "") = "ZIVectorData") :
    node_set_body t tree v false true true st =
      (none, { st with queue := some (q ++ [(Sum.inl tree, setTransform d v)]) }) := by
  simp [node_set_body, infoDict, hinfo, Except.map, node_type, hq, hty, setTransform]

/-- A set on a node whose `bufOutcome` is `some u` while a transaction is
open appends `(node, u)` to the queue and issues no transport call. -/
theorem node_set_buffers (fuel : Nat) (t : NodeTree) (tree : List String)
    (v u : Val) (st : TState) (q : List QEntry)
    (hq : st.queue = some q)
    (hbuf : bufOutcome t tree v = some u) :
    node_set fuel t tree v false true true st =
      (none, { st with queue := some (q ++ [(Sum.inl tree, u)]) }) := by
  cases hinfo : node_information t tree with
  | error e => simp [bufOutcome, hinfo] at hbuf
  | ok ir =>
    cases ir with
    | multi ds => simp [bufOutcome, hinfo] at hbuf
    | single d =>
      simp only [bufOutcome, hinfo] at hbuf
      split at hbuf
      next h1 =>
        split at hbuf
        next h2 => exact absurd hbuf (by simp)
        next h2 =>
          simp only [Option.some.injEq] at hbuf
          subst hbuf
          have hstep : node_set fuel t tree v false true true st =
              node_set_body t tree v false true true st := by
            cases fuel <;> simp [node_set, hinfo, h1]
          rw [hstep]
          exact node_set_body_buffers t tree v st q d hq hinfo h2
      next h1 => exact absurd hbuf (by simp)

/-- Running a body of buffering writes appends them all to the queue in
issue order and leaves the call trace unchanged. -/
theorem runBody_write_ops (t : NodeTree) (writes : List (List String × Val)) :
    ∀ (fuel : Nat) (st : TState) (q : List QEntry), st.queue = some q →
    (∀ w ∈ writes, bufOutcome t w.1 w.2 = some w.2) →
    runBody fuel t (writes.map (fun w => Op.write w.1 w.2)) st =
      (none, { st with queue := some (q ++ writes.map (fun w => (Sum.inl w.1, w.2))) }) := by
  induction writes with
  | nil =>
    intro fuel st q hq _
    obtain ⟨oq, cs⟩ := st
    simp at hq
    subst hq
    simp [runBody]
  | cons w ws ih =>
    intro fuel st q hq hbuf
    rw [List.map_cons, runBody.eq_def]
    simp only [runStep,
      node_set_buffers fuel t w.1 w.2 w.2 st q hq (hbuf w (by simp)),
      Option.isSome_none, Bool.false_eq_true, if_false]
    rw [ih fuel { queue := some (q ++ [(Sum.inl w.1, w.2)]), calls := st.calls }
      (q ++ [(Sum.inl w.1, w.2)]) rfl (fun x hx => hbuf x (by simp [hx]))]
    simp

/-- The analogue of `runBody_write_ops` for the raw-key writes of a
wildcard fan-out body. -/
theorem runBody_writeKey_ops (t : NodeTree) (v : Val) (trFn : String → List String)
    (ks : List String) :
    ∀ (fuel : Nat) (st : TState) (q : List QEntry), st.queue = some q →
    (∀ k ∈ ks, raw_path_to_node t.prefix_hide k = some (trFn k)) →
    (∀ k ∈ ks, bufOutcome t (trFn k) v = some v) →
    runBody fuel t (ks.map (fun k => Op.writeKey k v)) st =
      (none, { st with queue := some (q ++ ks.map (fun k => (Sum.inl (trFn k), v))) }) := by
  induction ks with
  | nil =>
    intro fuel st q hq _ _
    obtain ⟨oq, cs⟩ := st
    simp at hq
    subst hq
    simp [runBody]
  | cons k ks ih =>
    intro fuel st q hq htr hbuf
    rw [List.map_cons, runBody.eq_def]
    simp only [runStep, htr k (by simp),
      node_set_buffers fuel t (trFn k) v v st q hq (hbuf k (by simp)),
      Option.isSome_none, Bool.false_eq_true, if_false]
    rw [ih fuel { queue := some (q ++ [(Sum.inl (trFn k), v)]), calls := st.calls }
      (q ++ [(Sum.inl (trFn k), v)]) rfl
      (fun x hx => htr x (by simp [hx])) (fun x hx => hbuf x (by simp [hx]))]
    simp

/-- Body execution distributes over concatenation: a successful first
part hands its final state to the second part. -/
theorem runBody_append_ok (t : NodeTree) (ops2 : List Op) :
    ∀ (ops1 : List Op) (fuel : Nat) (st st2 : TState),
    runBody fuel t ops1 st = (none, st2) →
    runBody fuel t (ops1 ++ ops2) st = runBody fuel t ops2 st2 := by
  intro ops1
  induction ops1 with
  | nil =>
    intro fuel st st2 h
    rw [runBody.eq_def fuel t [] st] at h
    obtain ⟨-, rfl⟩ := Prod.mk.injEq .. ▸ (by exact h : ((none : Option PyErr), st) = (none, st2))
    rfl
  | cons op ops ih =>
    intro fuel st st2 h
    rw [runBody.eq_def] at h
    rw [List.cons_append, runBody.eq_def]
    by_cases hs : (runStep fuel t op st).1.isSome = true
    · simp only [hs, if_true] at h
      have h1 : (runStep fuel t op st).1 = none := by rw [h]
      rw [h1] at hs
      simp at hs
    · simp only [hs] at h ⊢
      simp only [Bool.false_eq_true, if_false] at h ⊢
      exact ih fuel _ st2 h

/-- Body execution distributes over concatenation: a raising first part
short-circuits the rest. -/
theorem runBody_append_err (t : NodeTree) (ops2 : List Op) :
    ∀ (ops1 : List Op) (fuel : Nat) (st st2 : TState) (e : PyErr),
    runBody fuel t ops1 st = (some e, st2) →
    runBody fuel t (ops1 ++ ops2) st = (some e, st2) := by
  intro ops1
  induction ops1 with
  | nil =>
    intro fuel st st2 e h
    rw [runBody.eq_def fuel t [] st] at h
    exact absurd h (by simp)
  | cons op ops ih =>
    intro fuel st st2 e h
    rw [runBody.eq_def] at h
    rw [List.cons_append, runBody.eq_def]
    by_cases hs : (runStep fuel t op st).1.isSome = true
    · simp only [hs, if_true] at h ⊢
      exact h
    · simp only [hs] at h ⊢
      simp only [Bool.false_eq_true, if_false] at h ⊢
      exact ih fuel _ st2 e h

/-- A body raising an exception as its next statement propagates it with
the state unchanged. -/
theorem runBody_raise (fuel : Nat) (t : NodeTree) (e : PyErr) (rest : List Op)
    (st : TState) :
    runBody fuel t (Op.raiseErr e :: rest) st = (some e, st) := by
  rw [runBody.eq_def]
  simp [runStep]

/-- A transaction over a body that completes normally flushes the queued
writes as one batched call and removes the queue. -/
theorem set_transaction_run_normal (fuel : Nat) (t : NodeTree) (ops : List Op)
    (st : TState) (q2 : List QEntry) (cs2 : List TCall) (pairs : List (String × Val))
    (hbody : runBody fuel t ops { queue := some [], calls := st.calls } =
      (none, { queue := some q2, calls := cs2 }))
    (hflush : flushPairs t q2 = .ok pairs) :
    set_transaction_run fuel t ops st =
      (none, { queue := none, calls := cs2 ++ [TCall.setBatch pairs] }) := by
  rw [set_transaction_run.eq_def,
    show ({ st with queue := some [] } : TState) = { queue := some [], calls := st.calls } from rfl,
    hbody]
  simp [hflush]

/-- A transaction over a body that raises propagates the exception,
removes the queue, and flushes nothing. -/
theorem set_transaction_run_raises (fuel : Nat) (t : NodeTree) (ops : List Op)
    (st st2 : TState) (e : PyErr)
    (hbody : runBody fuel t ops { queue := some [], calls := st.calls } = (some e, st2)) :
    set_transaction_run fuel t ops st = (some e, { st2 with queue := none }) := by
  rw [set_transaction_run.eq_def,
    show ({ st with queue := some [] } : TState) = { queue := some [], calls := st.calls } from rfl,
    hbody]

/-- Conversion of an all-node queue whose raw paths are given by `rawFn`. -/
theorem flushPairs_nodes (t : NodeTree) (rawFn : List String → String) :
    ∀ (entries : List (List String × Val)),
    (∀ w ∈ entries, node_to_raw_path t w.1 = some (rawFn w.1)) →
    flushPairs t (entries.map (fun w => (Sum.inl w.1, w.2))) =
      .ok (entries.map (fun w => (rawFn w.1, w.2))) := by
  intro entries
  induction entries with
  | nil => intro _; simp [flushPairs]
  | cons w ws ih =>
    intro h
    simp only [List.map_cons, flushPairs, h w (by simp)]
    rw [ih (fun x hx => h x (by simp [hx]))]
    simp [Except.map]

/-- Conversion of the queue a wildcard fan-out buffers. -/
theorem flushPairs_writeKey (t : NodeTree) (v : Val) (trFn : String → List String)
    (rawFn : String → String) :
    ∀ (ks : List String),
    (∀ k ∈ ks, node_to_raw_path t (trFn k) = some (rawFn k)) →
    flushPairs t (ks.map (fun k => (Sum.inl (trFn k), v))) =
      .ok (ks.map (fun k => (rawFn k, v))) := by
  intro ks
  induction ks with
  | nil => intro _; simp [flushPairs]
  | cons k ks ih =>
    intro h
    simp only [List.map_cons, flushPairs, h k (by simp)]
    rw [ih (fun x hx => h x (by simp [hx]))]
    simp [Except.map]

/-! Claim C8. -/

/-- C8: a set on a node that resolves to a single descriptor lacking the
`Write` access right (so in particular a non-wildcard node) raises the
read-only `AttributeError`; the error is surfaced to the caller without
any retry and no transport call is made — the state, queue and trace
included, is unchanged. -/
theorem c8_readonly_set (fuel : Nat) (t : NodeTree) (tree : List String)
    (d : NodeDoc) (v : Val) (deep enum parse : Bool) (st : TState)
    (hinfo : node_information t tree = .ok (.single d))
    (hro : pyIn "Write" (d.properties.getD "") = false) :
    node_set fuel t tree v deep enum parse st =
      (some (.attributeError "This parameter is read-only."), st) := by
  cases fuel <;> simp [node_set, hinfo, hro]

/-- Witness for C8 at the read-only clockbase node of `tDemo`. -/
theorem c8_readonly_set_witness :
    node_information tDemo ["clockbase"] = .ok (.single (docRO "/dev1234/clockbase")) ∧
    pyIn "Write" ((docRO "/dev1234/clockbase").properties.getD "") = false ∧
    node_set 2 tDemo ["clockbase"] (Val.int 5) false true true { queue := none, calls := [] } =
      (some (.attributeError "This parameter is read-only."), { queue := none, calls := [] }) :=
  ⟨rfl, by decide,
    c8_readonly_set 2 tDemo ["clockbase"] (docRO "/dev1234/clockbase") (Val.int 5)
      false true true { queue := none, calls := [] } rfl (by decide)⟩

/-! Claim C7. -/

/-- C7 (amended): opening a transaction while another is already active
is not rejected — `set_transaction` silently installs a fresh empty
buffer, so the run is oblivious to the previously pending queue: it
behaves exactly as if no transaction had been open, and the pending
writes are discarded. -/
theorem c7_nested_transaction (fuel : Nat) (t : NodeTree) (ops : List Op)
    (q0 : List QEntry) (c : List TCall) :
    set_transaction_run fuel t ops { queue := some q0, calls := c } =
      set_transaction_run fuel t ops { queue := none, calls := c } := by
  rw [set_transaction_run.eq_def, set_transaction_run.eq_def]

/-- C7 counterexample: on a concrete registry with a transaction already
active (a pending buffered write), opening another transaction raises
no error at all — the run completes normally, flushes only the inner
body's write, and the pending entry is gone.  The claimed defensive
rejection does not happen. -/
theorem c7_nested_transaction_counterexample :
    set_transaction_run 2 tDemo [Op.write ["demods", "0", "enable"] (Val.int 1)]
        { queue := some [(Sum.inl ["clockbase"], Val.int 9)], calls := [] } =
      (none, { queue := none,
               calls := [TCall.setBatch [("/dev1234/demods/0/enable", Val.int 1)]] }) := by
  have hbody := runBody_write_ops tDemo [(["demods", "0", "enable"], Val.int 1)] 2
    { queue := some [], calls := [] } [] rfl
    (by
      intro w hw
      simp only [List.mem_singleton] at hw
      subst hw
      rfl)
  simp only [List.map_cons, List.map_nil, List.nil_append] at hbody
  have h := set_transaction_run_normal 2 tDemo
    [Op.write ["demods", "0", "enable"] (Val.int 1)]
    { queue := some [(Sum.inl ["clockbase"], Val.int 9)], calls := [] }
    [(Sum.inl ["demods", "0", "enable"], Val.int 1)] []
    [("/dev1234/demods/0/enable", Val.int 1)] hbody rfl
  simpa using h

/-! Claim C1. -/

/-- C1: a transaction opened on the registry, with a body of N writes
through nodes that buffer their issued values, makes on normal exit
exactly one batched transport write carrying all N `(path, value)`
pairs in issue order and removes the queue; a body that raises makes
zero transport write calls and the queue is removed all the same. -/
theorem c1_transaction_writes (fuel : Nat) (t : NodeTree)
    (writes : List (List String × Val)) (rawFn : List String → String)
    (c : List TCall) (e : PyErr) (rest : List Op)
    (hbuf : ∀ w ∈ writes, bufOutcome t w.1 w.2 = some w.2)
    (hraw : ∀ w ∈ writes, node_to_raw_path t w.1 = some (rawFn w.1)) :
    set_transaction_run fuel t (writes.map (fun w => Op.write w.1 w.2))
        { queue := none, calls := c } =
      (none, { queue := none,
               calls := c ++ [TCall.setBatch (writes.map (fun w => (rawFn w.1, w.2)))] }) ∧
    set_transaction_run fuel t
        (writes.map (fun w => Op.write w.1 w.2) ++ Op.raiseErr e :: rest)
        { queue := none, calls := c } =
      (some e, { queue := none, calls := c }) := by
  have hb := runBody_write_ops t writes fuel { queue := some [], calls := c } [] rfl hbuf
  simp only [List.nil_append] at hb
  constructor
  · exact set_transaction_run_normal fuel t _ { queue := none, calls := c } _ c _
      hb (flushPairs_nodes t rawFn writes hraw)
  · have hb2 : runBody fuel t
        (writes.map (fun w => Op.write w.1 w.2) ++ Op.raiseErr e :: rest)
        { queue := some [], calls := c } =
        (some e, { queue := some (writes.map (fun w => (Sum.inl w.1, w.2))), calls := c }) := by
      rw [runBody_append_ok t (Op.raiseErr e :: rest) _ fuel _ _ hb]
      exact runBody_raise fuel t e rest _
    exact set_transaction_run_raises fuel t _ { queue := none, calls := c } _ e hb2

/-- Witness for C1: two buffered writes on `tDemo`, with an exercised
abnormal body as well. -/
theorem c1_transaction_writes_witness :
    (∀ w ∈ writesDemo, bufOutcome tDemo w.1 w.2 = some w.2) ∧
    (∀ w ∈ writesDemo, node_to_raw_path tDemo w.1 = some (rawFnDemo w.1)) ∧
    (set_transaction_run 2 tDemo (writesDemo.map (fun w => Op.write w.1 w.2))
        { queue := none, calls := [] } =
      (none, { queue := none,
               calls := [TCall.setBatch (writesDemo.map (fun w => (rawFnDemo w.1, w.2)))] }) ∧
     set_transaction_run 2 tDemo
        (writesDemo.map (fun w => Op.write w.1 w.2) ++ Op.raiseErr (.typeError "boom") :: [])
        { queue := none, calls := [] } =
      (some (.typeError "boom"), { queue := none, calls := [] })) := by
  refine ⟨?_, ?_, ?_⟩
  · intro w hw
    simp only [writesDemo, List.mem_cons, List.mem_singleton] at hw
    rcases hw with h | h | h
    · subst h; rfl
    · subst h; rfl
    · cases h
  · intro w hw
    simp only [writesDemo, List.mem_cons, List.mem_singleton] at hw
    rcases hw with h | h | h
    · subst h; rfl
    · subst h; rfl
    · cases h
  · have := c1_transaction_writes 2 tDemo writesDemo rawFnDemo []
      (.typeError "boom") []
      (by
        intro w hw
        simp only [writesDemo, List.mem_cons, List.mem_singleton] at hw
        rcases hw with h | h | h
        · subst h; rfl
        · subst h; rfl
        · cases h)
      (by
        intro w hw
        simp only [writesDemo, List.mem_cons, List.mem_singleton] at hw
        rcases hw with h | h | h
        · subst h; rfl
        · subst h; rfl
        · cases h)
    simpa using this

/-! Claim C10. -/

/-- C10: a wildcard set issued while a transaction with pending writes
`q0` is open opens a second, internal transaction on the same registry:
the pending writes are discarded (never flushed, never traced), the
wildcard's matched writes go out immediately as their own single batch,
and afterwards the registry's transaction queue is `None` — the outer
transaction is no longer open. -/
theorem c10_wildcard_set_inside_transaction (fuel : Nat) (t : NodeTree)
    (tree : List String) (v : Val) (q0 : List QEntry) (c : List TCall)
    (raw : String) (ks : List String) (trFn : String → List String)
    (rawFn : String → String)
    (hwild : contains_wildcards tree = true)
    (hraw : node_to_raw_path t tree = some raw)
    (hks : matchedKeys t raw = ks) (hne : ks ≠ [])
    (htr : ∀ q ∈ ks, raw_path_to_node t.prefix_hide q = some (trFn q))
    (hbuf : ∀ q ∈ ks, bufOutcome t (trFn q) v = some v)
    (hflu : ∀ q ∈ ks, node_to_raw_path t (trFn q) = some (rawFn q)) :
    node_set (fuel + 1) t tree v false true true { queue := some q0, calls := c } =
      (none, { queue := none,
               calls := c ++ [TCall.setBatch (ks.map (fun q => (rawFn q, v)))] }) := by
  have hinfo : node_information t tree = .error (.keyError raw) := by
    simp [node_information, hwild, hraw]
  have h1 : node_set (fuel + 1) t tree v false true true { queue := some q0, calls := c } =
      set_wildcard fuel t tree v { queue := some q0, calls := c } := by
    simp [node_set, hinfo, hwild]
  rw [h1]
  have h2 : set_wildcard fuel t tree v { queue := some q0, calls := c } =
      set_transaction_run fuel t (ks.map (fun q => Op.writeKey q v))
        { queue := some q0, calls := c } := by
    cases ks with
    | nil => exact absurd rfl hne
    | cons k0 kr => simp [set_wildcard, hraw, hks]
  rw [h2]
  have hb := runBody_writeKey_ops t v trFn ks fuel { queue := some [], calls := c } []
    rfl htr hbuf
  simp only [List.nil_append] at hb
  exact set_transaction_run_normal fuel t _ { queue := some q0, calls := c } _ c _
    hb (flushPairs_writeKey t v trFn rawFn ks hflu)

/-- Witness for C10: a wildcard set over both demodulator enables while
one write is pending in an open transaction. -/
theorem c10_wildcard_set_inside_transaction_witness :
    contains_wildcards ["demods", "*", "enable"] = true ∧
    node_to_raw_path tDemo ["demods", "*", "enable"] = some "/dev1234/demods/*/enable" ∧
    matchedKeys tDemo "/dev1234/demods/*/enable" =
      ["/dev1234/demods/0/enable", "/dev1234/demods/1/enable"] ∧
    node_set 3 tDemo ["demods", "*", "enable"] (Val.int 1) false true true
        { queue := some [(Sum.inl ["clockbase"], Val.int 9)], calls := [] } =
      (none, { queue := none,
               calls := [TCall.setBatch
                 [("/dev1234/demods/0/enable", Val.int 1),
                  ("/dev1234/demods/1/enable", Val.int 1)]] }) := by
  refine ⟨by decide, rfl, rfl, ?_⟩
  have h := c10_wildcard_set_inside_transaction 2 tDemo ["demods", "*", "enable"]
    (Val.int 1) [(Sum.inl ["clockbase"], Val.int 9)] [] "/dev1234/demods/*/enable"
    ["/dev1234/demods/0/enable", "/dev1234/demods/1/enable"] trFnDemo rawKeyFnDemo
    (by decide) rfl rfl (by simp)
    (by
      intro q hq
      simp only [List.mem_cons, List.mem_singleton] at hq
      rcases hq with h | h | h
      · subst h; rfl
      · subst h; rfl
      · cases h)
    (by
      intro q hq
      simp only [List.mem_cons, List.mem_singleton] at hq
      rcases hq with h | h | h
      · subst h; rfl
      · subst h; rfl
      · cases h)
    (by
      intro q hq
      simp only [List.mem_cons, List.mem_singleton] at hq
      rcases hq with h | h | h
      · subst h; rfl
      · subst h; rfl
      · cases h)
  simpa using h

/-! String lemmas shared by the path-conversion claims. -/

/-- Data of a concatenation. -/
theorem str_data_append (a b : String) : (a ++ b).data = a.data ++ b.data := by
  cases a; cases b; rfl

/-- Data of `String.mk`. -/
theorem mk_data (l : List Char) : (String.mk l).data = l := rfl

/-- `joinChar` over a list extended by one element. -/
theorem joinChar_append_single (c : Char) (x : List Char) :
    ∀ ls : List (List Char), ls ≠ [] →
    joinChar c (ls ++ [x]) = joinChar c ls ++ c :: x := by
  intro ls
  induction ls with
  | nil => intro h; exact absurd rfl h
  | cons a l ih =>
    intro _
    cases l with
    | nil => simp [joinChar]
    | cons b l2 =>
      have h2 := ih (by simp)
      simp only [List.cons_append] at h2 ⊢
      rw [joinChar, joinChar]
      rw [h2]
      simp

/-- Appending a `*` segment to a nonempty joined path appends `/*`. -/
theorem pyJoinSlash_append_star (L : List String) (hL : L ≠ []) :
    ("/" : String) ++ pyJoinSlash (L ++ ["*"]) = (("/" : String) ++ pyJoinSlash L) ++ "/*" := by
  apply String.ext
  simp only [str_data_append, pyJoinSlash, mk_data, List.map_append, List.map_cons,
    List.map_nil]
  rw [joinChar_append_single '/' (("*" : String).data) (L.map String.data)
    (by simpa using hL)]
  simp [List.append_assoc]

/-- `pyConcat` over a list extended by one element. -/
theorem pyConcat_append (l : List String) (x : String) :
    pyConcat (l ++ [x]) = pyConcat l ++ x := by
  simp [pyConcat, List.foldl_append]

/-- A tree extended by a `*` segment contains a wildcard. -/
theorem contains_wildcards_append_star (tree : List String) :
    contains_wildcards (tree ++ ["*"]) = true := by
  simp only [contains_wildcards, pyConcat_append, str_data_append]
  rw [List.any_append]
  simp

/-- Extending a nonempty node by a `*` segment extends its raw path by
`/*`, in both the kept-prefix and the hidden-prefix branch. -/
theorem node_to_raw_path_append_star (t : NodeTree) (tree : List String) (raw : String)
    (h : tree ≠ []) (hraw : node_to_raw_path t tree = some raw) :
    node_to_raw_path t (tree ++ ["*"]) = some (raw ++ "/*") := by
  cases tree with
  | nil => exact absurd rfl h
  | cons a l =>
    simp only [List.cons_append, node_to_raw_path] at hraw ⊢
    by_cases hk : t.prefixes_keep.contains (pyRstrip a) = true
    · simp only [hk, if_true, Option.some.injEq] at hraw ⊢
      rw [← hraw]
      have hj := pyJoinSlash_append_star ((a :: l).map pyRstrip) (by simp)
      simp only [List.map_cons, List.cons_append, List.nil_append,
        show pyRstrip "*" = "*" from by decide] at hj ⊢
      simpa using hj
    · simp only [hk, Bool.false_eq_true, if_false] at hraw ⊢
      cases hpre : t.prefix_hide with
      | none => rw [hpre] at hraw; exact absurd hraw (by simp)
      | some pre =>
        rw [hpre] at hraw
        have hraw2 : ("/" ++ pyJoinSlash (pre :: List.map pyRstrip (a :: l))) = raw :=
          Option.some.inj hraw
        show some ("/" ++ pyJoinSlash (pre :: List.map pyRstrip (a :: (l ++ ["*"])))) =
          some (raw ++ "/*")
        rw [← hraw2]
        have hj := pyJoinSlash_append_star (pre :: (a :: l).map pyRstrip) (by simp)
        simp only [List.map_cons, List.cons_append, List.nil_append,
          show pyRstrip "*" = "*" from by decide] at hj ⊢
        simpa using hj

/-! Claim C3. -/

/-- C3: a get on a node with no descriptor of its own (`KeyError` during
resolution), no wildcard in its path, but at least one strict descendant
(a partial node) behaves identically to an explicit wildcard get against
the node's absolute path extended by `/*`: the same `connection.get`
pattern, hence the same resulting node-to-(timestamp, value) mapping and
the same `KeyError` on zero matches; and for a nonempty tree it equals a
get on the explicit wildcard node `tree + ["*"]` as well. -/
theorem c3_partial_node_get (t : NodeTree) (tree : List String) (k raw : String)
    (deep enum parse : Bool)
    (hinfo : infoDict t tree = .error (.keyError k))
    (hnw : contains_wildcards tree = false)
    (hpart : is_partial_node t tree = .ok true)
    (hraw : node_to_raw_path t tree = some raw) :
    node_get t tree deep enum parse = (get_wildcard t (raw ++ "/*")).map GetRes.wild ∧
    (tree ≠ [] →
      node_get t (tree ++ ["*"]) deep enum parse =
        (get_wildcard t (raw ++ "/*")).map GetRes.wild) := by
  constructor
  · simp [node_get, hinfo, hnw, hpart, hraw]
  · intro hne
    have h1 := node_to_raw_path_append_star t tree raw hne hraw
    have h2 := contains_wildcards_append_star tree
    have h3 : node_information t (tree ++ ["*"]) = .error (.keyError (raw ++ "/*")) := by
      simp [node_information, h2, h1]
    have h4 : infoDict t (tree ++ ["*"]) = .error (.keyError (raw ++ "/*")) := by
      simp [infoDict, h3]
    simp [node_get, h4, h2, h1]

/-- Witness for C3 at the partial node `demods` of `tDemo`. -/
theorem c3_partial_node_get_witness :
    infoDict tDemo ["demods"] = .error (.keyError "/dev1234/demods") ∧
    contains_wildcards ["demods"] = false ∧
    is_partial_node tDemo ["demods"] = .ok true ∧
    node_to_raw_path tDemo ["demods"] = some "/dev1234/demods" ∧
    (node_get tDemo ["demods"] false true true =
        (get_wildcard tDemo ("/dev1234/demods" ++ "/*")).map GetRes.wild ∧
      (["demods"] ≠ ([] : List String) →
        node_get tDemo (["demods"] ++ ["*"]) false true true =
          (get_wildcard tDemo ("/dev1234/demods" ++ "/*")).map GetRes.wild)) :=
  ⟨rfl, by decide, rfl, rfl,
    c3_partial_node_get tDemo ["demods"] "/dev1234/demods" "/dev1234/demods"
      false true true rfl (by decide) rfl rfl⟩

/-! Claim C6. -/

/-- The loop of `Node.__iter__` yields exactly the substring-matching
entries, converted, in dict order. -/
theorem node_iter_go_spec (t : NodeTree) (own : String) (g : String → List String) :
    ∀ entries : List (String × NodeDoc),
    (∀ q ∈ entries, raw_path_to_node t.prefix_hide q.1 = some (g q.1)) →
    node_iter.go t own entries =
      .ok ((entries.filter (fun q => pyIn own q.1)).map (fun q => (g q.1, q.2))) := by
  intro entries
  induction entries with
  | nil => intro _; rfl
  | cons q rest ih =>
    intro hg
    obtain ⟨k, d⟩ := q
    by_cases hin : pyIn own k = true
    · simp only [node_iter.go, hin, if_true, hg (k, d) (by simp),
        ih (fun x hx => hg x (by simp [hx])), Except.map]
      simp [List.filter_cons, hin]
    · simp only [node_iter.go, hin, Bool.false_eq_true, if_false,
        ih (fun x hx => hg x (by simp [hx]))]
      simp [List.filter_cons, hin]

/-- The loop of `NodeTree.__iter__` yields every entry, converted, in
dict order. -/
theorem nodetree_iter_go_spec (t : NodeTree) (g : String → List String) :
    ∀ entries : List (String × NodeDoc),
    (∀ q ∈ entries, raw_path_to_node t.prefix_hide q.1 = some (g q.1)) →
    nodetree_iter.go t entries = .ok (entries.map (fun q => (g q.1, q.2))) := by
  intro entries
  induction entries with
  | nil => intro _; rfl
  | cons q rest ih =>
    intro hg
    obtain ⟨k, d⟩ := q
    simp only [nodetree_iter.go, hg (k, d) (by simp),
      ih (fun x hx => hg x (by simp [hx])), Except.map, List.map_cons]

/-- C6 (amended): iterating a Node yields, in registry-dict order,
exactly the `(node, descriptor)` pairs of the dict keys that contain the
node's display path (`self.node`) as a substring — a check that keeps
all strict descendants but also admits the node itself and non-aligned
matches; iterating the registry yields every pair. -/
theorem c6_iteration (t : NodeTree) (tree : List String) (own : String)
    (g : String → List String)
    (hown : node_prop t tree = .ok own)
    (hg : ∀ q ∈ t.flat_dict, raw_path_to_node t.prefix_hide q.1 = some (g q.1)) :
    node_iter t tree =
      .ok ((t.flat_dict.filter (fun q => pyIn own q.1)).map (fun q => (g q.1, q.2))) ∧
    nodetree_iter t = .ok (t.flat_dict.map (fun q => (g q.1, q.2))) := by
  constructor
  · rw [node_iter, hown]
    exact node_iter_go_spec t own g t.flat_dict hg
  · rw [nodetree_iter]
    exact nodetree_iter_go_spec t g t.flat_dict hg

/-- C6 counterexample: on `tSibling` the node `a` is a leaf, yet
iterating it yields itself and the non-descendant sibling `ab`
(substring match), both of which fail the source's own
`_is_child_node` strict, aligned-extension test — so iteration does not
yield exactly the strict descendants. -/
theorem c6_iteration_counterexample :
    node_iter tSibling ["a"] =
      .ok [(["a"], docRW "/dev/a"), (["ab"], docRW "/dev/ab")] ∧
    is_child_node ["a"] ["a"] = false ∧
    is_child_node ["a"] ["ab"] = false :=
  ⟨rfl, by decide, by decide⟩

/-- Witness for C6 on `tSibling`. -/
theorem c6_iteration_witness :
    node_prop tSibling ["a"] = .ok "/dev/a" ∧
    (∀ q ∈ tSibling.flat_dict,
      raw_path_to_node tSibling.prefix_hide q.1 = some (trFnSib q.1)) ∧
    (node_iter tSibling ["a"] =
        .ok ((tSibling.flat_dict.filter (fun q => pyIn "/dev/a" q.1)).map
          (fun q => (trFnSib q.1, q.2))) ∧
      nodetree_iter tSibling =
        .ok (tSibling.flat_dict.map (fun q => (trFnSib q.1, q.2)))) := by
  have hg : ∀ q ∈ tSibling.flat_dict,
      raw_path_to_node tSibling.prefix_hide q.1 = some (trFnSib q.1) := by
    intro q hq
    simp only [tSibling, List.mem_cons, List.mem_singleton] at hq
    rcases hq with h | h | h
    · subst h; rfl
    · subst h; rfl
    · cases h
  exact ⟨rfl, hg, c6_iteration tSibling ["a"] "/dev/a" trFnSib rfl hg⟩

/-! Claim C4. -/

/-- Chaining never changes the owning root. -/
theorem applyChain_rootId : ∀ (steps : List ChainStep) (a b : PyNode),
    applyChain a steps = some b → b.rootId = a.rootId := by
  intro steps
  induction steps with
  | nil => intro a b h; simp only [applyChain, Option.some.injEq] at h; rw [← h]
  | cons step rest ih =>
    intro a b h
    cases step with
    | attr n =>
      rw [applyChain] at h
      by_cases hs : pyStartsWith n "_" = true
      · simp [hs] at h
      · simp only [hs, Bool.false_eq_true, if_false] at h
        exact ih ⟨a.rootId, a.tree ++ [n]⟩ b h
    | item n =>
      rw [applyChain] at h
      exact ih ⟨a.rootId, a.tree ++ [n]⟩ b h

/-- C4: two nodes (with the chaining calls that produced them) are equal
exactly when they share the root object and their escape-stripped
segment tuples agree; hashing is consistent with this equality (the
tuple Python's `hash` receives is a pure function of it); and the hash
tuple of a degenerate empty-path node is built even when its
stringification recurses (the `RecursionError` is replaced by the
constant `"Node"`), so hashing never raises. -/
theorem c4_node_identity (r1 r2 : Nat) (steps1 steps2 : List ChainStep)
    (a b : PyNode) (reprRoot : Nat → String)
    (reprSelf : PyNode → Except Unit String)
    (h1 : applyChain ⟨r1, []⟩ steps1 = some a)
    (h2 : applyChain ⟨r2, []⟩ steps2 = some b)
    (hdet : ∀ n1 n2 : PyNode, n1.rootId = n2.rootId → n1.tree = n2.tree →
      reprSelf n1 = reprSelf n2) :
    (node_eq a b = true ↔ (r1 = r2 ∧ a.tree.map pyRstrip = b.tree.map pyRstrip)) ∧
    (node_eq a b = true →
      node_hash_key reprRoot reprSelf a = node_hash_key reprRoot reprSelf b) ∧
    (∀ x : PyNode, x.tree = [] →
      node_hash_key reprRoot (fun _ => .error ()) x =
        (Sum.inr "Node", reprRoot x.rootId)) := by
  have ha : a.rootId = r1 := applyChain_rootId steps1 ⟨r1, []⟩ a h1
  have hb : b.rootId = r2 := applyChain_rootId steps2 ⟨r2, []⟩ b h2
  refine ⟨?_, ?_, ?_⟩
  · simp [node_eq, ha, hb, Bool.and_eq_true, decide_eq_true_iff, beq_iff_eq, and_comm]
  · intro he
    simp only [node_eq, Bool.and_eq_true, decide_eq_true_iff, beq_iff_eq] at he
    obtain ⟨htree, hroot⟩ := he
    by_cases hemp : a.tree = []
    · have hemp2 : b.tree = [] := by
        cases hb2 : b.tree with
        | nil => rfl
        | cons x xs => rw [hemp, hb2] at htree; simp at htree
      have hrepr : reprSelf a = reprSelf b := hdet a b hroot (by rw [hemp, hemp2])
      simp [node_hash_key, hemp, hemp2, hrepr, hroot]
    · have hemp2 : ¬ b.tree = [] := by
        intro hb2
        cases ha2 : a.tree with
        | nil => exact hemp ha2
        | cons x xs => rw [hb2, ha2] at htree; simp at htree
      simp [node_hash_key, hemp, hemp2, htree, hroot]
  · intro x hx
    simp [node_hash_key, hx]

/-- Witness for C4: the same node produced by two different chains. -/
theorem c4_node_identity_witness :
    applyChain ⟨7, []⟩ [ChainStep.attr "demods", ChainStep.item "0"] =
      some ⟨7, ["demods", "0"]⟩ ∧
    applyChain ⟨7, []⟩ [ChainStep.item "demods", ChainStep.attr "0"] =
      some ⟨7, ["demods", "0"]⟩ ∧
    ((node_eq ⟨7, ["demods", "0"]⟩ ⟨7, ["demods", "0"]⟩ = true ↔
        (7 = 7 ∧ (["demods", "0"] : List String).map pyRstrip =
          (["demods", "0"] : List String).map pyRstrip)) ∧
      (node_eq ⟨7, ["demods", "0"]⟩ ⟨7, ["demods", "0"]⟩ = true →
        node_hash_key (fun _ => "NodeTree") (fun n => .ok (pyConcat n.tree))
            ⟨7, ["demods", "0"]⟩ =
          node_hash_key (fun _ => "NodeTree") (fun n => .ok (pyConcat n.tree))
            ⟨7, ["demods", "0"]⟩) ∧
      (∀ x : PyNode, x.tree = [] →
        node_hash_key (fun _ => "NodeTree") (fun _ => .error ()) x =
          (Sum.inr "Node", "NodeTree"))) :=
  ⟨rfl, rfl,
    c4_node_identity 7 7 [ChainStep.attr "demods", ChainStep.item "0"]
      [ChainStep.item "demods", ChainStep.attr "0"]
      ⟨7, ["demods", "0"]⟩ ⟨7, ["demods", "0"]⟩ (fun _ => "NodeTree")
      (fun n => .ok (pyConcat n.tree)) rfl rfl
      (fun _ _ _ ht => congrArg (fun l => Except.ok (pyConcat l)) ht)⟩

/-! Claim C5. -/

/-- Looking up the just-assigned key of a dict. -/
theorem dictInsert_lookup_self {α β : Type} [DecidableEq α] (k : α) (v : β) :
    ∀ m : List (α × β), (dictInsert m k v).lookup k = some v := by
  intro m
  induction m with
  | nil => simp [dictInsert, List.lookup]
  | cons p rest ih =>
    obtain ⟨k0, v0⟩ := p
    by_cases h : k0 = k
    · simp [dictInsert, h, List.lookup]
    · have hbeq : (k == k0) = false := by
        simp only [beq_eq_false_iff_ne]
        exact fun he => h he.symm
      simp only [dictInsert, h, if_false]
      simp [List.lookup, hbeq, ih]

/-- Assignment does not disturb other keys. -/
theorem dictInsert_lookup_ne {α β : Type} [DecidableEq α] (k k2 : α) (v : β)
    (h : k2 ≠ k) : ∀ m : List (α × β), (dictInsert m k v).lookup k2 = m.lookup k2 := by
  intro m
  induction m with
  | nil =>
    have hbeq : (k2 == k) = false := by
      simp only [beq_eq_false_iff_ne]
      exact h
    simp [dictInsert, List.lookup, hbeq]
  | cons p rest ih =>
    obtain ⟨k0, v0⟩ := p
    by_cases h0 : k0 = k
    · subst h0
      have hbeq : (k2 == k0) = false := by
        simp only [beq_eq_false_iff_ne]
        exact h
      simp [dictInsert, List.lookup, hbeq]
    · simp only [dictInsert, h0, if_false]
      simp [List.lookup, ih]

/-- Inserting labels other than `lbl` leaves `lbl`'s binding alone. -/
theorem insertLabels_lookup_not_mem (code : Int) (lbl : String) :
    ∀ (ls : List String) (acc : List (String × Int)), lbl ∉ ls →
    (insertLabels code acc ls).lookup lbl = acc.lookup lbl := by
  intro ls
  induction ls with
  | nil => intro acc _; rfl
  | cons l rest ih =>
    intro acc hnm
    rw [insertLabels]
    rw [ih (dictInsert acc l code) (fun hm => hnm (by simp [hm]))]
    exact dictInsert_lookup_ne l lbl code (fun he => hnm (by simp [he])) acc

/-- Inserting a batch of labels that contains `lbl` binds it to the
batch's code. -/
theorem insertLabels_lookup_mem (code : Int) (lbl : String) :
    ∀ (ls : List String) (acc : List (String × Int)), lbl ∈ ls →
    (insertLabels code acc ls).lookup lbl = some code := by
  intro ls
  induction ls with
  | nil => intro acc h; cases h
  | cons l rest ih =>
    intro acc hm
    rw [insertLabels]
    by_cases hr : lbl ∈ rest
    · exact ih (dictInsert acc l code) hr
    · have hl : l = lbl := by
        rcases List.mem_cons.mp hm with h | h
        · exact h.symm
        · exact absurd h hr
      subst hl
      rw [insertLabels_lookup_not_mem code l rest (dictInsert acc l code) hr]
      exact dictInsert_lookup_self l code acc

/-- Entries whose labels avoid `lbl` do not touch its binding in the
forward map. -/
theorem option_map_go_not_mem (lbl : String) :
    ∀ (opts : List (Int × String)) (acc : List (String × Int)),
    (∀ p ∈ opts, lbl ∉ findLabels p.2) →
    (option_map.go acc opts).lookup lbl = acc.lookup lbl := by
  intro opts
  induction opts with
  | nil => intro acc _; rfl
  | cons p rest ih =>
    intro acc h
    obtain ⟨c0, s0⟩ := p
    rw [option_map.go]
    rw [ih _ (fun x hx => h x (by simp [hx]))]
    exact insertLabels_lookup_not_mem c0 lbl (findLabels s0) acc (h (c0, s0) (by simp))

/-- In the forward map, `lbl` ends bound to `code` when every entry that
mentions it carries `code` and some entry (or the accumulator) does. -/
theorem option_map_go_mem (lbl : String) (code : Int) :
    ∀ (opts : List (Int × String)) (acc : List (String × Int)),
    (∀ p ∈ opts, lbl ∈ findLabels p.2 → p.1 = code) →
    (acc.lookup lbl = some code ∨ ∃ s, (code, s) ∈ opts ∧ lbl ∈ findLabels s) →
    (option_map.go acc opts).lookup lbl = some code := by
  intro opts
  induction opts with
  | nil =>
    intro acc _ hd
    rcases hd with h | ⟨s, hm, _⟩
    · exact h
    · cases hm
  | cons p rest ih =>
    intro acc hall hd
    obtain ⟨c0, s0⟩ := p
    rw [option_map.go]
    by_cases hm : lbl ∈ findLabels s0
    · have hc : c0 = code := hall (c0, s0) (by simp) hm
      subst hc
      exact ih _ (fun x hx hy => hall x (by simp [hx]) hy)
        (Or.inl (insertLabels_lookup_mem c0 lbl (findLabels s0) acc hm))
    · rw [show insertLabels c0 acc (findLabels s0) = insertLabels c0 acc (findLabels s0) from rfl]
      refine ih _ (fun x hx hy => hall x (by simp [hx]) hy) ?_
      rcases hd with h | ⟨s, hms, hls⟩
      · exact Or.inl (by
          rw [insertLabels_lookup_not_mem c0 lbl (findLabels s0) acc hm]; exact h)
      · rcases List.mem_cons.mp hms with he | he
        · exact absurd (by rw [show s0 = s from (Prod.mk.injEq .. ▸ he.symm).2]; exact hls) hm
        · exact Or.inr ⟨s, he, hls⟩

/-- Entries with other codes do not touch `code` in the reverse map. -/
theorem option_map_reverse_go_skip (code : Int) :
    ∀ (opts : List (Int × String)) (acc : List (Int × String)),
    (∀ p ∈ opts, p.1 ≠ code) →
    (option_map_reverse.go acc opts).lookup code = acc.lookup code := by
  intro opts
  induction opts with
  | nil => intro acc _; rfl
  | cons p rest ih =>
    intro acc h
    obtain ⟨c0, s0⟩ := p
    rw [option_map_reverse.go]
    cases hfl : findLabels s0 with
    | nil => exact ih acc (fun x hx => h x (by simp [hx]))
    | cons l0 ls0 =>
      rw [ih _ (fun x hx => h x (by simp [hx]))]
      exact dictInsert_lookup_ne c0 code l0 (Ne.symm (h (c0, s0) (by simp))) acc

/-- The reverse map of an options dict with distinct codes binds `code`
to the first label of its entry. -/
theorem option_map_reverse_go_mem (code : Int) (lbl : String) (ls : List String)
    (s : String) :
    ∀ (opts : List (Int × String)) (acc : List (Int × String)),
    (opts.map Prod.fst).Nodup → (code, s) ∈ opts → findLabels s = lbl :: ls →
    (option_map_reverse.go acc opts).lookup code = some lbl := by
  intro opts
  induction opts with
  | nil => intro acc _ hm _; cases hm
  | cons p rest ih =>
    intro acc hnd hm hfl
    obtain ⟨c0, s0⟩ := p
    simp only [List.map_cons, List.nodup_cons] at hnd
    rcases List.mem_cons.mp hm with he | he
    · have hc : c0 = code ∧ s0 = s := by
        have := he.symm
        exact ⟨congrArg Prod.fst this, congrArg Prod.snd this⟩
      obtain ⟨hc1, hc2⟩ := hc
      subst hc1; subst hc2
      rw [option_map_reverse.go, hfl]
      rw [option_map_reverse_go_skip c0 rest _ ?hrest]
      · exact dictInsert_lookup_self c0 lbl acc
      case hrest =>
        intro x hx he2
        exact hnd.1 (he2 ▸ List.mem_map_of_mem Prod.fst hx)
    · rw [option_map_reverse.go]
      cases hfl0 : findLabels s0 with
      | nil => exact ih acc hnd.2 he hfl
      | cons l0 ls0 => exact ih _ hnd.2 he hfl

/-- C5 (amended): for an options dict with distinct codes, decoding a
code to its first quoted label and re-encoding that label returns the
original code, provided the label does not occur among the quoted
labels of any other entry (the forward map lets later entries
overwrite a shared label, which is what the counterexample exhibits). -/
theorem c5_option_roundtrip (opts : List (Int × String)) (code : Int)
    (s lbl : String) (ls : List String)
    (hnodup : (opts.map Prod.fst).Nodup)
    (hmem : (code, s) ∈ opts)
    (hlabels : findLabels s = lbl :: ls)
    (huniq : ∀ p ∈ opts, p.1 ≠ code → lbl ∉ findLabels p.2) :
    (option_map_reverse opts).lookup code = some lbl ∧
    (option_map opts).lookup lbl = some code := by
  constructor
  · exact option_map_reverse_go_mem code lbl ls s opts [] hnodup hmem hlabels
  · refine option_map_go_mem lbl code opts []
      (fun p hp hl => ?_) (Or.inr ⟨s, hmem, by rw [hlabels]; simp⟩)
    by_contra hne
    exact huniq p hp hne hl

/-- C5 counterexample: two codes share the first label `on`; decoding
`0` gives `on` but re-encoding `on` gives `1`, because the later entry
overwrote the forward binding.  The claim as stated is false. -/
theorem c5_option_roundtrip_counterexample :
    (option_map_reverse optsDup).lookup 0 = some "on" ∧
    (option_map optsDup).lookup "on" = some 1 ∧
    (some (1 : Int) ≠ some (0 : Int)) :=
  ⟨rfl, rfl, by decide⟩

/-- Witness for C5 on `optsGood`. -/
theorem c5_option_roundtrip_witness :
    (optsGood.map Prod.fst).Nodup ∧
    ((0 : Int), "\"off\": Output disabled.") ∈ optsGood ∧
    findLabels "\"off\": Output disabled." = ["off"] ∧
    (∀ p ∈ optsGood, p.1 ≠ 0 → "off" ∉ findLabels p.2) ∧
    ((option_map_reverse optsGood).lookup 0 = some "off" ∧
      (option_map optsGood).lookup "off" = some 0) := by
  refine ⟨by simp [optsGood], by decide, rfl, by decide, ?_⟩
  exact c5_option_roundtrip optsGood 0 "\"off\": Output disabled." "off" []
    (by simp [optsGood]) (by decide) rfl (by decide)

/-! Claim C9. -/

/-- The fan-out loop realises the claim's schedule: each matched key's
node is waited on in order with the threaded clock, and the timeout is
zeroed after the first. -/
theorem wait_fan_spec (t : NodeTree) (obs : List String → Nat → Val) (value : Val)
    (s : Nat) :
    ∀ (ks : List String) (fuel tmo now : Nat),
    (∀ k ∈ ks, ∃ tr d, raw_path_to_node t.prefix_hide k = some tr ∧
      node_information t tr = .ok (.single d)) →
    wait_fan (fuel + 1) t obs value s ks tmo now =
      .ok ((fanout_claim t obs value s ks tmo now).1.map WaitRes.b,
           (fanout_claim t obs value s ks tmo now).2) := by
  intro ks
  induction ks with
  | nil => intro fuel tmo now _; simp [wait_fan, fanout_claim]
  | cons k rest ih =>
    intro fuel tmo now hres
    obtain ⟨tr, d, htr, hinfo⟩ := hres k (by simp)
    have hstep : wait_fsc (fuel + 1) t obs tr value tmo s now =
        .ok (.b (wait_single (obs tr) (wait_target d value) tmo s now).1,
             (wait_single (obs tr) (wait_target d value) tmo s now).2) := by
      simp [wait_fsc, hinfo]
    have htry : wait_try t obs tr value tmo s now =
        wait_single (obs tr) (wait_target d value) tmo s now := by
      simp [wait_try, hinfo]
    have hrest := ih fuel 0 (wait_single (obs tr) (wait_target d value) tmo s now).2
      (fun x hx => hres x (by simp [hx]))
    simp only [wait_fan, htr, hstep, fanout_claim, htry, hrest, List.map_cons]

/-- C9: `wait_for_state_change` on a wildcard node whose matches all
resolve to single descriptors fans out over the matched keys
sequentially: the first match is waited on with the full caller-supplied
timeout, every later match with a zero timeout, the clock threads
through, and the call returns the list of the individual boolean
outcomes in match order.  The second conjunct bounds the zero-timeout
poll loop: it sleeps at most once. -/
theorem c9_wildcard_wait (fuel : Nat) (t : NodeTree) (obs : List String → Nat → Val)
    (tree : List String) (value : Val) (timeout s now : Nat) (raw : String)
    (hwild : contains_wildcards tree = true)
    (hraw : node_to_raw_path t tree = some raw)
    (hne : matchedKeys t raw ≠ [])
    (hres : ∀ k ∈ matchedKeys t raw, ∃ tr d,
      raw_path_to_node t.prefix_hide k = some tr ∧
      node_information t tr = .ok (.single d)) :
    wait_fsc (fuel + 2) t obs tree value timeout s now =
      .ok (.l ((fanout_claim t obs value s (matchedKeys t raw) timeout now).1.map
             WaitRes.b),
           (fanout_claim t obs value s (matchedKeys t raw) timeout now).2) ∧
    (∀ (g : Nat → Val) (tgt : Val) (n : Nat), wait_loop g tgt (n + 0) s n ≤ n + s + 1) := by
  have hinfo : node_information t tree = .error (.keyError raw) := by
    simp [node_information, hwild, hraw]
  constructor
  · have hfan := wait_fan_spec t obs value s (matchedKeys t raw) fuel timeout now hres
    simp only [wait_fsc, hinfo, hwild, if_true, hraw, hfan]
    cases hks : matchedKeys t raw with
    | nil => exact absurd hks hne
    | cons k0 kr =>
      rw [fanout_claim]
      simp
  · intro g tgt n
    by_cases hcond : n ≤ n + 0 ∧ g n ≠ tgt
    · rw [wait_loop, dif_pos hcond, wait_loop,
        dif_neg (fun hc => by omega : ¬ (n + s + 1 ≤ n + 0 ∧ g (n + s + 1) ≠ tgt))]
    · rw [wait_loop, dif_neg hcond]
      omega

/-- Witness for C9: a wildcard wait over both demodulator enables of
`tDemo`. -/
theorem c9_wildcard_wait_witness :
    contains_wildcards ["demods", "*", "enable"] = true ∧
    node_to_raw_path tDemo ["demods", "*", "enable"] = some "/dev1234/demods/*/enable" ∧
    matchedKeys tDemo "/dev1234/demods/*/enable" ≠ [] ∧
    (wait_fsc 5 tDemo (fun _ _ => Val.int 1) ["demods", "*", "enable"] (Val.int 1)
        10 0 0 =
      .ok (.l ((fanout_claim tDemo (fun _ _ => Val.int 1) (Val.int 1) 0
             (matchedKeys tDemo "/dev1234/demods/*/enable") 10 0).1.map WaitRes.b),
           (fanout_claim tDemo (fun _ _ => Val.int 1) (Val.int 1) 0
             (matchedKeys tDemo "/dev1234/demods/*/enable") 10 0).2) ∧
      (∀ (g : Nat → Val) (tgt : Val) (n : Nat),
        wait_loop g tgt (n + 0) 0 n ≤ n + 0 + 1)) := by
  refine ⟨by decide, rfl, by decide, ?_⟩
  exact c9_wildcard_wait 3 tDemo (fun _ _ => Val.int 1) ["demods", "*", "enable"]
    (Val.int 1) 10 0 0 "/dev1234/demods/*/enable" (by decide) rfl (by decide)
    (by
      intro k hk
      simp only [matchedKeys, fnmatchFilter, tDemo] at hk
      rcases List.mem_filter.mp hk with ⟨hm, -⟩
      simp only [List.map_cons, List.map_nil, List.mem_cons, List.mem_singleton] at hm
      rcases hm with h | h | h | h
      · subst h
        exact ⟨["demods", "0", "enable"], docRW "/dev1234/demods/0/enable", rfl, rfl⟩
      · subst h
        exact ⟨["demods", "1", "enable"], docRW "/dev1234/demods/1/enable", rfl, rfl⟩
      · subst h
        exact ⟨["clockbase"], docRO "/dev1234/clockbase", rfl, rfl⟩
      · cases h)

/-! Claim C2: split/join and escape lemmas. -/

/-- A split is never the empty list. -/
theorem splitChar_ne_nil (c : Char) : ∀ l : List Char, splitChar c l ≠ [] := by
  intro l
  induction l with
  | nil => simp [splitChar]
  | cons x xs ih =>
    rw [splitChar]
    by_cases h : x = c
    · simp [h]
    · simp only [h, if_false]
      cases hs : splitChar c xs with
      | nil => exact absurd hs ih
      | cons g gs => simp

/-- No piece of a split contains the separator. -/
theorem splitChar_not_mem (c : Char) : ∀ (l : List Char) (g : List Char),
    g ∈ splitChar c l → c ∉ g := by
  intro l
  induction l with
  | nil =>
    intro g hg
    simp only [splitChar, List.mem_singleton] at hg
    subst hg
    simp
  | cons x xs ih =>
    intro g hg
    rw [splitChar] at hg
    by_cases h : x = c
    · simp only [h, if_true, List.mem_cons] at hg
      rcases hg with hg | hg
      · subst hg; simp
      · exact ih g hg
    · simp only [h, if_false] at hg
      cases hs : splitChar c xs with
      | nil => exact absurd hs (splitChar_ne_nil c xs)
      | cons g0 gs =>
        rw [hs] at hg
        rcases List.mem_cons.mp hg with hg | hg
        · subst hg
          intro hc
          rcases List.mem_cons.mp hc with hc | hc
          · exact h hc.symm
          · exact ih g0 (by simp [hs]) hc
        · exact ih g (by simp [hs, hg])

/-- Splitting a separator-free list gives it back whole. -/
theorem splitChar_no_sep (c : Char) : ∀ l : List Char, c ∉ l →
    splitChar c l = [l] := by
  intro l
  induction l with
  | nil => intro _; rfl
  | cons x xs ih =>
    intro h
    rw [splitChar]
    have hx : ¬ x = c := fun he => h (by simp [he])
    simp only [hx, if_false]
    rw [ih (fun hm => h (by simp [hm]))]

/-- Splitting past a separator-free piece peels it off. -/
theorem splitChar_append_sep (c : Char) :
    ∀ (x : List Char) (t : List Char), c ∉ x →
    splitChar c (x ++ c :: t) = x :: splitChar c t := by
  intro x
  induction x with
  | nil =>
    intro t _
    rw [List.nil_append, splitChar]
    simp
  | cons a xs ih =>
    intro t h
    rw [List.cons_append, splitChar]
    have ha : ¬ a = c := fun he => h (by simp [he])
    simp only [ha, if_false]
    rw [ih t (fun hm => h (by simp [hm]))]

/-- Splitting a join of separator-free pieces recovers the pieces. -/
theorem splitChar_joinChar (c : Char) :
    ∀ ls : List (List Char), (∀ g ∈ ls, c ∉ g) → ls ≠ [] →
    splitChar c (joinChar c ls) = ls := by
  intro ls
  induction ls with
  | nil => intro _ h; exact absurd rfl h
  | cons x rest ih =>
    intro hfree _
    cases rest with
    | nil =>
      rw [joinChar]
      exact splitChar_no_sep c x (hfree x (by simp))
    | cons y rest2 =>
      rw [joinChar]
      rw [splitChar_append_sep c x (joinChar c (y :: rest2)) (hfree x (by simp))]
      rw [ih (fun g hg => hfree g (by simp [hg])) (by simp)]

/-- Stripping after appending one underscore strips it too. -/
theorem rstripData_append_underscore (l : List Char) :
    rstripData (l ++ ['_']) = rstripData l := by
  simp [rstripData, List.dropWhile]

/-- Stripping never lengthens. -/
theorem rstripData_length_le (l : List Char) :
    (rstripData l).length ≤ l.length := by
  simp only [rstripData, List.length_reverse]
  calc (List.dropWhile (fun c => c = '_') l.reverse).length
      ≤ l.reverse.length := (List.dropWhile_sublist _).length_le
    _ = l.length := List.length_reverse l

/-- `pyRstrip` over an appended underscore. -/
theorem pyRstrip_append_underscore (s : String) :
    pyRstrip (s ++ "_") = pyRstrip s := by
  apply String.ext
  simp only [pyRstrip, mk_data]
  rw [show (s ++ "_").data = s.data ++ ['_'] from by cases s; rfl]
  exact rstripData_append_underscore s.data

/-- Stripping undoes the keyword escape on a segment with no trailing
underscore. -/
theorem pyRstrip_pyEscape (s : String) (h : pyRstrip s = s) :
    pyRstrip (pyEscape s) = s := by
  rw [pyEscape]
  by_cases hk : is_keyword s = true
  · rw [if_pos hk, pyRstrip_append_underscore, h]
  · rw [if_neg hk, h]

/-- An escaped segment can only equal a keyword-free, underscore-free
prefix when the segment already is that prefix. -/
theorem pyEscape_eq_pre (s pre : String)
    (hpp : pyRstrip pre = pre) (h : pyEscape s = pre) : s = pre := by
  rw [pyEscape] at h
  by_cases hk : is_keyword s = true
  · rw [if_pos hk] at h
    exfalso
    have h1 : pyRstrip pre = pyRstrip s := by
      rw [← h, pyRstrip_append_underscore]
    have h2 : pre.data.length = s.data.length + 1 := by
      rw [← h, show (s ++ "_").data = s.data ++ ['_'] from by cases s; rfl]
      simp
    have h3 : pre.data.length ≤ s.data.length := by
      rw [hpp] at h1
      rw [h1]
      simpa [pyRstrip, mk_data] using rstripData_length_le s.data
    omega
  · rw [if_neg hk] at h
    exact h

/-- A string with a leading slash splits into the empty head and a
nonempty tail. -/
theorem pySplitSlash_startsWith (p : String) (h : pyStartsWith p "/" = true) :
    ∃ s1 rest, pySplitSlash p = "" :: s1 :: rest := by
  rw [pyStartsWith] at h
  cases hd : p.data with
  | nil => rw [show ("/" : String).data = ['/'] from rfl, hd] at h; cases h
  | cons c cs =>
    rw [hd] at h
    have hc : c = '/' := by
      rw [show ("/" : String).data = ['/'] from rfl] at h
      simp only [List.isPrefixOf, Bool.and_eq_true, beq_iff_eq] at h
      exact h.1.symm
    subst hc
    rw [pySplitSlash, hd, splitChar]
    simp only [if_pos rfl]
    cases hs : splitChar '/' cs with
    | nil => exact absurd hs (splitChar_ne_nil '/' cs)
    | cons g gs => exact ⟨String.mk g, gs.map String.mk, rfl⟩

/-- No piece of a slash split contains a slash. -/
theorem mem_pySplitSlash_no_slash (p : String) :
    ∀ g ∈ pySplitSlash p, '/' ∉ g.data := by
  intro g hg
  rw [pySplitSlash] at hg
  rcases List.mem_map.mp hg with ⟨l, hl, he⟩
  rw [← he]
  exact splitChar_not_mem '/' p.data l hl

/-- Splitting a slash-joined path recovers its segments. -/
theorem pySplitSlash_join (ls : List String) (h : ∀ g ∈ ls, '/' ∉ g.data)
    (hne : ls ≠ []) :
    pySplitSlash (("/" : String) ++ pyJoinSlash ls) = "" :: ls := by
  have hdata : (("/" : String) ++ pyJoinSlash ls).data =
      '/' :: joinChar '/' (ls.map String.data) := by
    rw [str_data_append]
    rfl
  rw [pySplitSlash, hdata, splitChar]
  simp only [if_pos rfl]
  rw [splitChar_joinChar '/' (ls.map String.data)
    (by
      intro g hg
      rcases List.mem_map.mp hg with ⟨s2, hs2, he⟩
      rw [← he]
      exact h s2 hs2)
    (by simpa using hne)]
  simp only [if_true, List.map_cons, List.map_map]
  rw [show (String.mk ∘ String.data) = id from funext (fun s2 => rfl), List.map_id]

/-- Escaping then stripping restores a list of underscore-free segments. -/
theorem map_escape_strip : ∀ l : List String, (∀ s ∈ l, pyRstrip s = s) →
    (l.map pyEscape).map pyRstrip = l := by
  intro l
  induction l with
  | nil => intro _; rfl
  | cons a rest ih =>
    intro h
    simp only [List.map_cons]
    rw [pyRstrip_pyEscape a (h a (by simp)), ih (fun s hs => h s (by simp [hs]))]

/-- `raw_path_to_node` on a path splitting into a head and at least two
pieces: drop the head and compare the escaped second piece with the
hidden prefix. -/
theorem raw_path_to_node_cons (ph : Option String) (raw h0 s1 : String)
    (rest : List String) (hsp : pySplitSlash raw = h0 :: s1 :: rest) :
    raw_path_to_node ph raw =
      if some (pyEscape s1) = ph then some (rest.map pyEscape)
      else some (pyEscape s1 :: rest.map pyEscape) := by
  unfold raw_path_to_node
  rw [hsp]
  rfl

/-- What a successful `_generate_first_layer` run guarantees: the keep
accumulator only grows, every key has a leading slash, a key under the
hidden prefix has a third segment, and the first segment of any other
key ends up in the keep list. -/
theorem generate_facts (ph : Option String) :
    ∀ (keys fl0 keep0 fl keep : List String),
    generate_first_layer ph keys (fl0, keep0) = Except.ok (fl, keep) →
    (∀ s ∈ keep0, s ∈ keep) ∧
    (∀ p ∈ keys, pyStartsWith p "/" = true ∧
      ∀ s1 rest0, pySplitSlash p = "" :: s1 :: rest0 →
        (some s1 = ph → rest0 ≠ []) ∧ (¬ some s1 = ph → s1 ∈ keep)) := by
  intro keys
  induction keys with
  | nil =>
    intro fl0 keep0 fl keep hgen
    simp only [generate_first_layer] at hgen
    have h2 : fl0 = fl ∧ keep0 = keep := by simpa using hgen
    rw [h2.2]
    exact ⟨fun s hs => hs, fun p hp => absurd hp (List.not_mem_nil p)⟩
  | cons raw rest ih =>
    intro fl0 keep0 fl keep hgen
    by_cases hst : pyStartsWith raw "/" = true
    · cases hsp : pySplitSlash raw with
      | nil => simp [generate_first_layer, hst, hsp] at hgen
      | cons h0 tail =>
        cases tail with
        | nil => simp [generate_first_layer, hst, hsp] at hgen
        | cons p1 more =>
          simp only [generate_first_layer, hst, hsp] at hgen
          rw [if_neg (by simp)] at hgen
          by_cases hph : some p1 = ph
          · rw [if_pos hph] at hgen
            cases more with
            | nil => simp at hgen
            | cons p2 ms =>
              obtain ⟨hkeep, hrest⟩ := ih _ keep0 fl keep hgen
              refine ⟨hkeep, ?_⟩
              intro p hp
              rcases List.mem_cons.mp hp with hpr | hpr
              · subst hpr
                refine ⟨hst, ?_⟩
                intro s1 rest0 hsp2
                rw [hsp2] at hsp
                cases hsp
                exact ⟨fun _ => by simp, fun hn => absurd hph hn⟩
              · exact hrest p hpr
          · rw [if_neg hph] at hgen
            have hsub : keep0 ⊆ (if keep0.contains p1 then keep0 else keep0 ++ [p1]) := by
              by_cases hc : keep0.contains p1 = true
              · rw [if_pos hc]
                exact fun x hx => hx
              · rw [if_neg hc]
                exact List.subset_append_left keep0 [p1]
            have hp1 : p1 ∈ (if keep0.contains p1 then keep0 else keep0 ++ [p1]) := by
              by_cases hc : keep0.contains p1 = true
              · rw [if_pos hc]
                simpa using hc
              · rw [if_neg hc]
                simp
            obtain ⟨hkeep, hrest⟩ := ih fl0 _ fl keep hgen
            refine ⟨fun s hs => hkeep s (hsub hs), ?_⟩
            intro p hp
            rcases List.mem_cons.mp hp with hpr | hpr
            · subst hpr
              refine ⟨hst, ?_⟩
              intro s1 rest0 hsp2
              rw [hsp2] at hsp
              cases hsp
              exact ⟨fun habs => absurd habs hph, fun _ => hkeep p1 hp1⟩
            · exact hrest p hpr
    · simp [generate_first_layer, hst] at hgen

/-- A successful `_generate_first_layer` run never puts the hidden
prefix itself into the keep list. -/
theorem generate_keep_not_hidden (ph : Option String) :
    ∀ (keys fl0 keep0 fl keep : List String),
    generate_first_layer ph keys (fl0, keep0) = Except.ok (fl, keep) →
    ∀ s, some s = ph → s ∉ keep0 → s ∉ keep := by
  intro keys
  induction keys with
  | nil =>
    intro fl0 keep0 fl keep hgen s _ hs
    simp only [generate_first_layer] at hgen
    have h2 : fl0 = fl ∧ keep0 = keep := by simpa using hgen
    rw [← h2.2]
    exact hs
  | cons raw rest ih =>
    intro fl0 keep0 fl keep hgen s hsph hs
    by_cases hst : pyStartsWith raw "/" = true
    · cases hsp : pySplitSlash raw with
      | nil => simp [generate_first_layer, hst, hsp] at hgen
      | cons h0 tail =>
        cases tail with
        | nil => simp [generate_first_layer, hst, hsp] at hgen
        | cons p1 more =>
          simp only [generate_first_layer, hst, hsp] at hgen
          rw [if_neg (by simp)] at hgen
          by_cases hph : some p1 = ph
          · rw [if_pos hph] at hgen
            cases more with
            | nil => simp at hgen
            | cons p2 ms => exact ih _ keep0 fl keep hgen s hsph hs
          · rw [if_neg hph] at hgen
            refine ih fl0 _ fl keep hgen s hsph ?_
            by_cases hc : keep0.contains p1 = true
            · rw [if_pos hc]
              exact hs
            · rw [if_neg hc]
              intro hmem
              rcases List.mem_append.mp hmem with hm | hm
              · exact hs hm
              · rw [List.mem_singleton.mp hm] at hsph
                exact hph hsph
    · simp [generate_first_layer, hst] at hgen

/-- `node_to_raw_path` on a nonempty tree, written out. -/
theorem node_to_raw_path_cons (t : NodeTree) (a : String) (rest : List String) :
    node_to_raw_path t (a :: rest) =
      if t.prefixes_keep.contains (pyRstrip a) then
        some ("/" ++ pyJoinSlash ((a :: rest).map pyRstrip))
      else match t.prefix_hide with
        | some pre => some ("/" ++ pyJoinSlash (pre :: (a :: rest).map pyRstrip))
        | none => none := rfl

/-- `node_to_raw_path` when the stripped head is a kept prefix. -/
theorem node_to_raw_path_cons_keep (t : NodeTree) (a : String) (rest : List String)
    (h : t.prefixes_keep.contains (pyRstrip a) = true) :
    node_to_raw_path t (a :: rest) =
      some ("/" ++ pyJoinSlash ((a :: rest).map pyRstrip)) := by
  rw [node_to_raw_path_cons, if_pos h]

/-- `node_to_raw_path` when the stripped head is not kept and a hidden
prefix is set. -/
theorem node_to_raw_path_cons_hide (t : NodeTree) (a pre : String) (rest : List String)
    (h : ¬ t.prefixes_keep.contains (pyRstrip a) = true)
    (hph : t.prefix_hide = some pre) :
    node_to_raw_path t (a :: rest) =
      some ("/" ++ pyJoinSlash (pre :: (a :: rest).map pyRstrip)) := by
  rw [node_to_raw_path_cons, if_neg h, hph]

/-- C2.  Converting a key of the flat dict to node segments
(`raw_path_to_node`), back to an absolute raw path (`node_to_raw_path`),
and to segments again returns the segments of the first conversion —
provided the registry was built successfully, no split segment of the
key ends in an underscore, and the hidden prefix (when set) is neither a
Python keyword nor underscore-terminated.  (Amended: without those two
provisos the round-trip fails, see the counterexample.) -/
theorem c2_roundtrip (t : NodeTree) (fl : List String) (p : String)
    (hgen : generate_first_layer t.prefix_hide (t.flat_dict.map Prod.fst) ([], []) =
      Except.ok (fl, t.prefixes_keep))
    (hmem : p ∈ t.flat_dict.map Prod.fst)
    (hseg : ∀ s ∈ pySplitSlash p, pyRstrip s = s)
    (hpre : ∀ pre, t.prefix_hide = some pre →
      pyRstrip pre = pre ∧ is_keyword pre = false) :
    ∃ segs abs2,
      raw_path_to_node t.prefix_hide p = some segs ∧
      node_to_raw_path t segs = some abs2 ∧
      raw_path_to_node t.prefix_hide abs2 = some segs := by
  obtain ⟨-, hkeys⟩ := generate_facts t.prefix_hide (t.flat_dict.map Prod.fst)
    [] [] fl t.prefixes_keep hgen
  obtain ⟨hstart, hshape⟩ := hkeys p hmem
  obtain ⟨s1, rest0, hsp⟩ := pySplitSlash_startsWith p hstart
  obtain ⟨hhid, hkeep⟩ := hshape s1 rest0 hsp
  have hs1 : pyRstrip s1 = s1 := hseg s1 (by rw [hsp]; simp)
  have hrest : ∀ s ∈ rest0, pyRstrip s = s := fun s hs => hseg s (by rw [hsp]; simp [hs])
  have hnos : ∀ g ∈ ("" :: s1 :: rest0 : List String), '/' ∉ g.data := by
    rw [← hsp]
    exact mem_pySplitSlash_no_slash p
  have hr1 := raw_path_to_node_cons t.prefix_hide p "" s1 rest0 hsp
  by_cases hE : some (pyEscape s1) = t.prefix_hide
  · rw [if_pos hE] at hr1
    obtain ⟨pre, hph⟩ : ∃ pre, t.prefix_hide = some pre := ⟨pyEscape s1, hE.symm⟩
    obtain ⟨hpp, hpk⟩ := hpre pre hph
    have hse : pyEscape s1 = pre := by
      rw [hph] at hE
      exact Option.some.inj hE
    have hs1pre : s1 = pre := pyEscape_eq_pre s1 pre hpp hse
    have hrne : rest0 ≠ [] := hhid (by rw [hs1pre, hph])
    cases rest0 with
    | nil => exact absurd rfl hrne
    | cons r1 rr =>
      have hr1s : pyRstrip r1 = r1 := hrest r1 (by simp)
      have hstrip : (pyEscape r1 :: rr.map pyEscape).map pyRstrip = r1 :: rr := by
        simpa using map_escape_strip (r1 :: rr) hrest
      have hnos2 : ∀ g ∈ (r1 :: rr : List String), '/' ∉ g.data :=
        fun g hg => hnos g (by simp [hg])
      by_cases hct : t.prefixes_keep.contains (pyRstrip (pyEscape r1)) = true
      · have habs : node_to_raw_path t (pyEscape r1 :: rr.map pyEscape) =
            some ("/" ++ pyJoinSlash (r1 :: rr)) := by
          rw [node_to_raw_path_cons_keep t _ _ hct, hstrip]
        have hsp3 : pySplitSlash ("/" ++ pyJoinSlash (r1 :: rr)) = "" :: r1 :: rr :=
          pySplitSlash_join (r1 :: rr) hnos2 (by simp)
        have hnp : pre ∉ t.prefixes_keep :=
          generate_keep_not_hidden t.prefix_hide (t.flat_dict.map Prod.fst)
            [] [] fl t.prefixes_keep hgen pre hph.symm (by simp)
        have hne3 : ¬ some (pyEscape r1) = t.prefix_hide := by
          intro habs2
          rw [hph] at habs2
          have hr1pre : r1 = pre := pyEscape_eq_pre r1 pre hpp (Option.some.inj habs2)
          rw [pyRstrip_pyEscape r1 hr1s] at hct
          have hmem2 : r1 ∈ t.prefixes_keep := by simpa using hct
          rw [hr1pre] at hmem2
          exact hnp hmem2
        have hr3 := raw_path_to_node_cons t.prefix_hide _ "" r1 rr hsp3
        rw [if_neg hne3] at hr3
        exact ⟨pyEscape r1 :: rr.map pyEscape, "/" ++ pyJoinSlash (r1 :: rr),
          by simpa using hr1, habs, hr3⟩
      · have habs : node_to_raw_path t (pyEscape r1 :: rr.map pyEscape) =
            some ("/" ++ pyJoinSlash (pre :: r1 :: rr)) := by
          rw [node_to_raw_path_cons_hide t _ pre _ hct hph, hstrip]
        have hnospre : ('/' : Char) ∉ pre.data := by
          rw [← hs1pre]
          exact hnos s1 (by simp)
        have hnos3 : ∀ g ∈ (pre :: r1 :: rr : List String), '/' ∉ g.data := by
          intro g hg
          rcases List.mem_cons.mp hg with h | h
          · subst h
            exact hnospre
          · exact hnos2 g h
        have hsp3 : pySplitSlash ("/" ++ pyJoinSlash (pre :: r1 :: rr)) =
            "" :: pre :: r1 :: rr :=
          pySplitSlash_join (pre :: r1 :: rr) hnos3 (by simp)
        have hepre : pyEscape pre = pre := by
          rw [pyEscape, if_neg (by simp [hpk])]
        have hr3 := raw_path_to_node_cons t.prefix_hide _ "" pre (r1 :: rr) hsp3
        rw [if_pos (by rw [hepre, hph])] at hr3
        exact ⟨pyEscape r1 :: rr.map pyEscape, "/" ++ pyJoinSlash (pre :: r1 :: rr),
          by simpa using hr1, habs, by simpa using hr3⟩
  · rw [if_neg hE] at hr1
    have hnph : ¬ some s1 = t.prefix_hide := by
      intro habs
      obtain ⟨-, hpk⟩ := hpre s1 habs.symm
      exact hE (by rw [pyEscape, if_neg (by simp [hpk])]; exact habs)
    have hs1keep : s1 ∈ t.prefixes_keep := hkeep hnph
    have hct : t.prefixes_keep.contains (pyRstrip (pyEscape s1)) = true := by
      rw [pyRstrip_pyEscape s1 hs1]
      simpa using hs1keep
    have hall : ∀ s ∈ (s1 :: rest0 : List String), pyRstrip s = s := by
      intro s hs
      rcases List.mem_cons.mp hs with h | h
      · subst h
        exact hs1
      · exact hrest s h
    have hstrip : (pyEscape s1 :: rest0.map pyEscape).map pyRstrip = s1 :: rest0 := by
      simpa using map_escape_strip (s1 :: rest0) hall
    have habs : node_to_raw_path t (pyEscape s1 :: rest0.map pyEscape) =
        some ("/" ++ pyJoinSlash (s1 :: rest0)) := by
      rw [node_to_raw_path_cons_keep t _ _ hct, hstrip]
    have hnos4 : ∀ g ∈ (s1 :: rest0 : List String), '/' ∉ g.data :=
      fun g hg => hnos g (by simp [hg])
    have hsp3 : pySplitSlash ("/" ++ pyJoinSlash (s1 :: rest0)) = "" :: s1 :: rest0 :=
      pySplitSlash_join (s1 :: rest0) hnos4 (by simp)
    have hr3 := raw_path_to_node_cons t.prefix_hide _ "" s1 rest0 hsp3
    rw [if_neg hE] at hr3
    exact ⟨pyEscape s1 :: rest0.map pyEscape, "/" ++ pyJoinSlash (s1 :: rest0),
      hr1, habs, hr3⟩

/-- Counterexample to C2 as stated: on `tUnderscore` the key
`/dev/a_/b` (present in the flat dict of a successfully built registry)
converts to segments `[a_, b]`, back to the raw path `/dev/a/b`, and
re-converts to the different segments `[a, b]` — `rstrip` discards the
trailing underscore that was never added by keyword escaping. -/
theorem c2_roundtrip_counterexample :
    generate_first_layer tUnderscore.prefix_hide
        (tUnderscore.flat_dict.map Prod.fst) ([], []) =
      Except.ok (["a_"], tUnderscore.prefixes_keep) ∧
    "/dev/a_/b" ∈ tUnderscore.flat_dict.map Prod.fst ∧
    raw_path_to_node tUnderscore.prefix_hide "/dev/a_/b" = some ["a_", "b"] ∧
    node_to_raw_path tUnderscore ["a_", "b"] = some "/dev/a/b" ∧
    raw_path_to_node tUnderscore.prefix_hide "/dev/a/b" = some ["a", "b"] ∧
    (["a", "b"] : List String) ≠ ["a_", "b"] :=
  ⟨rfl, by decide, rfl, rfl, rfl, by decide⟩

/-- Witness for C2 on `tDemo` at the key `/dev1234/demods/0/enable`. -/
theorem c2_roundtrip_witness :
    ∃ segs abs2,
      raw_path_to_node tDemo.prefix_hide "/dev1234/demods/0/enable" = some segs ∧
      node_to_raw_path tDemo segs = some abs2 ∧
      raw_path_to_node tDemo.prefix_hide abs2 = some segs :=
  c2_roundtrip tDemo ["demods", "clockbase"] "/dev1234/demods/0/enable"
    rfl (by decide) (by decide)
    (by
      intro pre hp
      have h2 : pre = "dev1234" := (Option.some.inj hp).symm
      subst h2
      exact ⟨rfl, rfl⟩)

end ZhinstToolkit
